import Mathlib

/-!
Shallow embedding of the geodetic module `cruntils/gis.py` and proofs about it.

Conventions used throughout:
- Python floats are modelled as exact numbers: `ℚ` where the source only does
  field arithmetic (DMS formatting, the geoid-grid lookup), `ℝ` where the
  source calls transcendental functions (`math.sin`, `math.sqrt`, ...).
- Python strings are modelled as `List Char`; `str.split(" ")` is
  `splitOnSpace`, f-string interpolation of an integer is `natToChars`, and
  the `repr` of a float that is an exact multiple of 1e-4 is `floatRepr4`.
- Fallible code (list indexing that can raise IndexError, `float(...)` that
  can raise ValueError, unbound locals) returns `Option`; `none` models the
  exception escaping the function.
- The helper module `cruntils/utils.py` is not part of the sources; the
  angle helpers it provides are modelled from the spec (see the doc comments
  of `DegToRad`, `RadToDeg`, `ConvertAngle`, `Cos5`, `Tan2`, `Tan4`).
- The unbounded `while` loop of `GridEastNorthToLatLon` is modelled with
  explicit fuel; running out of fuel returns `none` at the outer layer, and
  `some r` means the Python function terminated returning `r`.
-/

/-! ## Python-semantics helpers (exact arithmetic) -/

/-- Python float modulo `x % m` for positive modulus `m`: the result takes the
sign of the divisor, `x % m = x - m * floor (x / m)`. -/
def pyMod (x m : ℚ) : ℚ := x - m * ⌊x / m⌋

/-- Python `int(q)` on a float: truncation toward zero. -/
def pyTrunc (q : ℚ) : ℤ := if 0 ≤ q then ⌊q⌋ else -⌊-q⌋

/-- Python list indexing `l[i]`: nonnegative indices from the front,
negative indices wrap from the back, anything else raises IndexError
(modelled as `none`). -/
def pyGet {α : Type} (l : List α) (i : ℤ) : Option α :=
  if 0 ≤ i then l.get? i.toNat
  else if (-i).toNat ≤ l.length then l.get? (l.length - (-i).toNat)
  else none

/-- Python `round` on ℚ: round half to even (banker rounding). -/
def roundHalfEven (q : ℚ) : ℤ :=
  if q - ⌊q⌋ = 1 / 2 then (if ⌊q⌋ % 2 = 0 then ⌊q⌋ else ⌊q⌋ + 1) else round q

/-- Python `round(q, d)`: round to `d` decimal places, half to even. -/
def pyRound (q : ℚ) (d : ℕ) : ℚ := (roundHalfEven (q * 10 ^ d) : ℚ) / 10 ^ d

/-! ## Strings as character lists: printing and parsing -/

/-- The ASCII digit character for `d < 10`. -/
def digitChar (d : ℕ) : Char := Char.ofNat (48 + d)

/-- Decimal digits of a natural number, most significant first (the way
Python formats an `int` in an f-string). -/
def natToChars (n : ℕ) : List Char :=
  if h : n < 10 then [digitChar n]
  else natToChars (n / 10) ++ [digitChar (n % 10)]
decreasing_by exact Nat.div_lt_self (by omega) (by omega)

/-- Python `str.rjust(w, c)`: left-pad to width `w` with `c`. -/
def rjust (s : List Char) (w : ℕ) (c : Char) : List Char :=
  List.replicate (w - s.length) c ++ s

/-- Python `str.split(" ")`: split on every single space character; adjacent
spaces produce empty fields, and the empty string gives one empty field. -/
def splitOnSpace : List Char → List (List Char)
  | [] => [[]]
  | c :: cs =>
    if c = ' ' then [] :: splitOnSpace cs
    else
      match splitOnSpace cs with
      | [] => [[c]]
      | t :: ts => (c :: t) :: ts

/-- Whether a character is an ASCII decimal digit. -/
def isDigitCh (c : Char) : Bool := 48 ≤ c.toNat && c.toNat ≤ 57

/-- Value of a digit string (most significant digit first). -/
def charsVal (cs : List Char) : ℕ :=
  cs.foldl (fun a c => a * 10 + (c.toNat - 48)) 0

/-- Core of Python `float(s)` on an unsigned token: digits with an optional
single decimal point; at least one digit overall. Returns `none` on anything
malformed (ValueError). -/
def parseFloatCore (cs : List Char) : Option ℚ :=
  let intp := cs.takeWhile (fun c => c ≠ '.')
  let rest := cs.dropWhile (fun c => c ≠ '.')
  match rest with
  | [] => if intp ≠ [] ∧ intp.all isDigitCh then some ((charsVal intp : ℚ)) else none
  | _ :: frac =>
    if (intp ≠ [] ∨ frac ≠ []) ∧ intp.all isDigitCh ∧ frac.all isDigitCh then
      some ((charsVal intp : ℚ) + (charsVal frac : ℚ) / 10 ^ frac.length)
    else none

/-- Python `float(s)` restricted to the shapes the module feeds it: an
optional leading minus sign, then digits with an optional decimal point. -/
def parseFloat (cs : List Char) : Option ℚ :=
  match cs with
  | [] => none
  | c :: rest => if c = '-' then (parseFloatCore rest).map Neg.neg else parseFloatCore cs

/-- Fractional digits (4 places) of `m < 10000` with trailing zeros removed,
keeping at least one digit, as Python float repr does. -/
def fracChars (m : ℕ) : List Char :=
  let padded := rjust (natToChars m) 4 '0'
  let stripped := (padded.reverse.dropWhile (fun c => c = '0')).reverse
  if stripped = [] then ['0'] else stripped

/-- Python `repr` of a nonnegative float that is an exact multiple of 1e-4
(the result of `round(sec, 4)`): integer part, a point, then the fractional
digits with trailing zeros stripped. -/
def floatRepr4 (q : ℚ) : List Char :=
  let k : ℕ := (⌊q * 10000⌋).toNat
  natToChars (k / 10000) ++ '.' :: fracChars (k % 10000)

/-! ## Enumerations of the module -/

/-- Embeds the enum `ELatLon` of the source. -/
inductive ELatLon : Type
  | Lat
  | Lon
deriving DecidableEq

/-- Embeds the enum `ECoordFormat` of the source. -/
inductive ECoordFormat : Type
  | LatLonRad
  | LatLonDd
  | LatLonDms
deriving DecidableEq

/-- Embeds the enum `EReferenceEllipsoid` of the source, plus a constructor
`invalid` standing for any Python value that is not a member of the enum
(Python is untyped, so callers can pass anything as `ellipsoid_ref`). -/
inductive EllipsoidRef : Type
  | Airy1830
  | Wgs84
  | invalid
deriving DecidableEq

/-! ## DMS conversions (`DmsToDd`, `DdToDms`) -/

/-- Embeds `gis.DmsToDd`: split the string on spaces, parse the first three
fields as floats, negate for a `S` or `W` hemisphere field. `none` models the
IndexError/ValueError a malformed string raises. -/
def DmsToDd (dms_str : List Char) : Option ℚ :=
  let parts := splitOnSpace dms_str
  match parts.get? 0, parts.get? 1, parts.get? 2, parts.get? 3 with
  | some p0, some p1, some p2, some p3 =>
    match parseFloat p0, parseFloat p1, parseFloat p2 with
    | some deg, some mins, some sec =>
      let dd := deg + mins / 60 + sec / 3600
      some (if p3 = ['S'] ∨ p3 = ['W'] then -dd else dd)
    | _, _, _ => none
  | _, _, _, _ => none

/-- Embeds `gis.DdToDms`. `int(...)` on the nonnegative quantities involved
is `Int.toNat ∘ Int.floor`; the f-string is the concatenation of the four
space-separated fields. -/
def DdToDms (dd : ℚ) (lat_or_lon : ELatLon) : List Char :=
  let dd_abs := |dd|
  let deg : ℕ := (⌊dd_abs⌋).toNat
  let mins : ℕ := (⌊(dd_abs - (deg : ℚ)) * 60⌋).toNat
  let sec : ℚ := (dd_abs - (deg : ℚ) - (mins : ℚ) / 60) * 3600
  let deg_str : List Char :=
    match lat_or_lon with
    | ELatLon.Lat => rjust (natToChars deg) 2 '0'
    | ELatLon.Lon => rjust (natToChars deg) 3 '0'
  let suffix : Char :=
    match lat_or_lon with
    | ELatLon.Lat => if dd < 0 then 'S' else 'N'
    | ELatLon.Lon => if dd < 0 then 'W' else 'E'
  deg_str ++ ' ' :: (natToChars mins ++ ' ' :: (floatRepr4 (pyRound sec 4) ++ [' ', suffix]))

/-! ## Geoid height table (`Egm.GetHeight`) -/

/-- The grid step of the EGM96 table: 15 arc minutes. -/
def StepSize : ℚ := 1 / 4

/-- Modelled from the spec: the bundled data file `EGM96_WW_15M_GH.GRD` is
not among the sources, only its loader is. Per the spec the loaded grid is a
worldwide table at 0.25 degree steps, i.e. 721 rows (unsigned latitude 0 to
180) of 1441 samples (unsigned longitude 0 to 360). The sample values are
unknown, so zeros stand in; the claims settled against this grid only
concern indexing behaviour, which does not depend on the stored values. -/
def egm96Grid : List (List ℚ) := List.replicate 721 (List.replicate 1441 0)

/-- Embeds `Egm.GetHeight` over an already-loaded grid (`Egm.LoadData` does
file I/O and is not modelled; the grid is passed explicitly). Python list
indexing may raise IndexError, hence the `Option`. -/
def GetHeight (grid : List (List ℚ)) (lat lon : ℚ) : Option ℚ :=
  let x := lon
  let y := lat
  let x1 := x - pyMod x StepSize
  let x2 := x1 + StepSize
  let y1 := y - pyMod y StepSize
  let y2 := y1 + StepSize
  match pyGet grid (pyTrunc (y1 / StepSize)) with
  | none => none
  | some row1 =>
    match pyGet row1 (pyTrunc (x1 / StepSize)) with
    | none => none
    | some q11 =>
      match pyGet grid (pyTrunc (y2 / StepSize)) with
      | none => none
      | some row2 =>
        match pyGet row2 (pyTrunc (x1 / StepSize)) with
        | none => none
        | some q12 =>
          match pyGet row1 (pyTrunc (x2 / StepSize)) with
          | none => none
          | some q21 =>
            match pyGet row2 (pyTrunc (x2 / StepSize)) with
            | none => none
            | some q22 =>
              let xy1 := (((x2 - x) / (x2 - x1)) * q11) + (((x - x1) / (x2 - x1)) * q21)
              let xy2 := (((x2 - x) / (x2 - x1)) * q12) + (((x - x1) / (x2 - x1)) * q22)
              let yx := (((y2 - y) / (y2 - y1)) * xy1) + (((y - y1) / (y2 - y1)) * xy2)
              some (pyRound yx 2)

/-! ## Real-valued angle helpers (utils module, modelled from the spec) -/

/-- Modelled from the spec: `utils.DegToRad` (the `utils` module is not among
the sources). Standard degree-to-radian conversion. -/
noncomputable def DegToRad (deg : ℝ) : ℝ := deg * Real.pi / 180

/-- Modelled from the spec: `utils.RadToDeg`, standard radian-to-degree
conversion. -/
noncomputable def RadToDeg (rad : ℝ) : ℝ := rad * 180 / Real.pi

/-- Modelled from the spec: `utils.Cos5`, the fifth power of the cosine. -/
noncomputable def Cos5 (x : ℝ) : ℝ := Real.cos x ^ 5

/-- Modelled from the spec: `utils.Tan2`, the square of the tangent. -/
noncomputable def Tan2 (x : ℝ) : ℝ := Real.tan x ^ 2

/-- Modelled from the spec: `utils.Tan4`, the fourth power of the tangent. -/
noncomputable def Tan4 (x : ℝ) : ℝ := Real.tan x ^ 4

/-- Model of the C library function behind Python `math.atan2` on reals
(ignoring signed zeros and infinities, which have no counterpart in ℝ). -/
noncomputable def atan2 (y x : ℝ) : ℝ :=
  if 0 < x then Real.arctan (y / x)
  else if x < 0 then
    (if 0 ≤ y then Real.arctan (y / x) + Real.pi else Real.arctan (y / x) - Real.pi)
  else (if 0 < y then Real.pi / 2 else if y < 0 then -(Real.pi / 2) else 0)

/-! ## Ellipsoid catalogue -/

/-- Embeds `gis.GetAiry1830`. -/
noncomputable def GetAiry1830 : ℝ × ℝ := (6377563.396, 6356256.909)

/-- Embeds `gis.GetWgs84`. -/
noncomputable def GetWgs84 : ℝ × ℝ := (6378137.000, 6356752.3141)

/-- Embeds `gis.Eccentricity1` (first eccentricity squared). `math.pow` at
the integer exponent 2 is iterated multiplication. -/
noncomputable def Eccentricity1 (a b : ℝ) : ℝ := (a ^ 2 - b ^ 2) / a ^ 2

/-- Embeds `gis.Eccentricity2` (second eccentricity squared). -/
noncomputable def Eccentricity2 (a b : ℝ) : ℝ := (a ^ 2 - b ^ 2) / b ^ 2

/-- The if/elif dispatch on `ellipsoid_ref` that `CartesianToLatLon` and
`LatLonHeightToEcefCartesian` both contain. The source has no else branch
that sets `a, b` (`LatLonHeightToEcefCartesian` merely prints a message), so
for a non-member value the locals stay unbound and the subsequent use raises
UnboundLocalError: modelled by `none`. -/
noncomputable def ellipsoidParams : EllipsoidRef → Option (ℝ × ℝ)
  | EllipsoidRef.Airy1830 => some GetAiry1830
  | EllipsoidRef.Wgs84 => some GetWgs84
  | EllipsoidRef.invalid => none

/-! ## Geodetic conversions -/

/-- The module-level constant `wgs84_earth_equatorial_radius_m`. -/
noncomputable def wgs84_earth_equatorial_radius_m : ℝ := 6378137

/-- Embeds `gis.CartesianToLatLon`. Note the longitude is computed as
`atan(y / x)`; in ℝ the division is total, while Python raises
ZeroDivisionError at `x = 0` (callers must avoid that input, so no claim
depends on the junk value at `x = 0`). -/
noncomputable def CartesianToLatLon (x y z : ℝ) (ellipsoid_ref : EllipsoidRef) :
    Option (ℝ × ℝ × ℝ) :=
  (ellipsoidParams ellipsoid_ref).map (fun ab =>
    let a := ab.1
    let b := ab.2
    let e2 := Eccentricity1 a b
    let e22 := Eccentricity2 a b
    let p := Real.sqrt (x ^ 2 + y ^ 2)
    let R := Real.sqrt (p ^ 2 + z ^ 2)
    let tan_beta := ((b * z) / (a * p)) * ((1 + e22) * (b / R))
    let beta := Real.arctan tan_beta
    let tan_lat_prime :=
      (z + (e22 * b * Real.sin beta ^ 3)) / (p - (e2 * a * Real.cos beta ^ 3))
    let lat_rad := Real.arctan tan_lat_prime
    let lon_rad := Real.arctan (y / x)
    let v := a / Real.sqrt (1 - (e2 * Real.sin lat_rad ^ 2))
    let height := (p * Real.cos lat_rad) + (z * Real.sin lat_rad) - (a ^ 2 / v)
    (RadToDeg lat_rad, RadToDeg lon_rad, height))

/-- Embeds `gis.LatLonHeightToEcefCartesian` for numeric latitude/longitude
inputs. In the `LatLonDms` branch the source feeds the arguments to
`DmsToDd`, which only accepts strings, so passing reals there crashes: that
branch is `none` in this real-typed embedding (no claim exercises it). -/
noncomputable def LatLonHeightToEcefCartesian (lat lon height : ℝ)
    (coord_format : ECoordFormat) (ellipsoid_ref : EllipsoidRef) :
    Option (ℝ × ℝ × ℝ) :=
  match coord_format with
  | ECoordFormat.LatLonDms => none
  | fmt =>
    let lat := if fmt = ECoordFormat.LatLonDd then DegToRad lat else lat
    let lon := if fmt = ECoordFormat.LatLonDd then DegToRad lon else lon
    (ellipsoidParams ellipsoid_ref).map (fun ab =>
      let a := ab.1
      let b := ab.2
      let e2 := Eccentricity1 a b
      let v := a / Real.sqrt (1 - (e2 * Real.sin lat ^ 2))
      let x := (v + height) * Real.cos lat * Real.cos lon
      let y := (v + height) * Real.cos lat * Real.sin lon
      let z := (((1 - e2) * v) + height) * Real.sin lat
      (x, y, z))

/-- Embeds `gis.DistanceBetween` (haversine distance on a sphere of WGS84
equatorial radius). -/
noncomputable def DistanceBetween (lat_1 lon_1 lat_2 lon_2 : ℝ) (degrees : Bool) : ℝ :=
  let lat_1 := if degrees then DegToRad lat_1 else lat_1
  let lon_1 := if degrees then DegToRad lon_1 else lon_1
  let lat_2 := if degrees then DegToRad lat_2 else lat_2
  let lon_2 := if degrees then DegToRad lon_2 else lon_2
  let delta_lat := lat_2 - lat_1
  let delta_lon := lon_2 - lon_1
  let a := (Real.sin (delta_lat / 2) * Real.sin (delta_lat / 2)) +
    (Real.cos lat_1 * Real.cos lat_2 * Real.sin (delta_lon / 2) * Real.sin (delta_lon / 2))
  let c := 2 * atan2 (Real.sqrt a) (Real.sqrt (1 - a))
  wgs84_earth_equatorial_radius_m * c

/-- Embeds `gis.Extrapolate` (forward great-circle position from start,
bearing and distance in metres). -/
noncomputable def Extrapolate (lat lon brg dst : ℝ) (degrees : Bool) : ℝ × ℝ :=
  let ang_dst := dst / wgs84_earth_equatorial_radius_m
  let lat := if degrees then DegToRad lat else lat
  let lon := if degrees then DegToRad lon else lon
  let brg := if degrees then DegToRad brg else brg
  let tlat := Real.arcsin
    ((Real.sin lat * Real.cos ang_dst) + (Real.cos lat * Real.sin ang_dst * Real.cos brg))
  let tlon := lon + atan2
    (Real.sin brg * Real.sin ang_dst * Real.cos lat)
    (Real.cos ang_dst - (Real.sin lat * Real.sin tlat))
  (RadToDeg tlat, RadToDeg tlon)

/-! ## The OSGB forward projection -/

/-- Embeds `gis.LatLonToGridEastNorth` (Transverse Mercator series on the
Airy 1830 ellipsoid). `math.pow` at integer exponents is iterated
multiplication; at the exponents -0.5 and -1.5 it is real exponentiation. -/
noncomputable def LatLonToGridEastNorth (lat lon : ℝ) : ℝ × ℝ :=
  let F0 : ℝ := 0.9996012717
  let lat_0 := DegToRad 49
  let lon_0 := DegToRad (-2)
  let E0 : ℝ := 400000
  let N0 : ℝ := -100000
  let a := GetAiry1830.1
  let b := GetAiry1830.2
  let e2 := Eccentricity1 a b
  let lat := DegToRad lat
  let lon := DegToRad lon
  let n := (a - b) / (a + b)
  let v := a * F0 * (1 - (e2 * Real.sin lat ^ 2)) ^ (-0.5 : ℝ)
  let p := a * F0 * (1 - e2) * (1 - (e2 * Real.sin lat ^ 2)) ^ (-1.5 : ℝ)
  let n2 := (v / p) - 1
  let m1 := (1 + n + ((5 : ℝ) / 4) * n ^ 2 + ((5 : ℝ) / 4) * n ^ 3) * (lat - lat_0)
  let m2 := ((3 * n) + (3 * n ^ 2) + ((21 : ℝ) / 8) * n ^ 3) *
    Real.sin (lat - lat_0) * Real.cos (lat + lat_0)
  let m3 := ((((15 : ℝ) / 8) * n ^ 2 + ((15 : ℝ) / 8) * n ^ 3) *
      (Real.sin (2 * (lat - lat_0)) * Real.cos (2 * (lat + lat_0)))) -
    (((35 : ℝ) / 24) * n ^ 3 * Real.sin (3 * (lat - lat_0)) * Real.cos (3 * (lat + lat_0)))
  let m := b * F0 * (m1 - m2 + m3)
  let tI := m + N0
  let tII := (v / 2) * Real.sin lat * Real.cos lat
  let tIII := (v / 24) * Real.sin lat * Real.cos lat ^ 3 *
    (5 - Real.tan lat ^ 2 + (9 * n2))
  let tIIIA := (v / 720) * Real.sin lat * Cos5 lat * (61 - (58 * Tan2 lat) + Tan4 lat)
  let tIV := v * Real.cos lat
  let tV := (v / 6) * Real.cos lat ^ 3 * ((v / p) - Real.tan lat ^ 2)
  let tVI := (v / 120) * Real.cos lat ^ 5 *
    (5 - (18 * Tan2 lat) + Tan4 lat + (14 * n2) - (58 * Tan2 lat * n2))
  let N := tI + (tII * (lon - lon_0) ^ 2) + (tIII * (lon - lon_0) ^ 4) +
    (tIIIA * (lon - lon_0) ^ 6)
  let E := E0 + (tIV * (lon - lon_0)) + (tV * (lon - lon_0) ^ 3 + (tVI * (lon - lon_0) ^ 5))
  (E, N)

/-! ## The unfinished inverse projection -/

/-- The `m` computed inside the loop of `gis.GridEastNorthToLatLon`. The
source uses `ntings` (the input northing) where the meridional series wants
the ellipsoid shape parameter `n`, faithfully reproduced here. -/
noncomputable def gridM (ntings lat_dash : ℝ) : ℝ :=
  let lat_0 := DegToRad 49
  let b := GetAiry1830.2
  let f0 : ℝ := 0.9996012717
  let m1 := (1 + ntings + ((5 : ℝ) / 4) * ntings ^ 2 + ((5 : ℝ) / 4) * ntings ^ 3) *
    (lat_dash - lat_0)
  let m2_1 := (3 * ntings) + (3 * ntings ^ 2) + (((21 : ℝ) / 8) * ntings ^ 3)
  let m2_2 := Real.sin (lat_dash - lat_0)
  let m2_3 := Real.cos (lat_dash + lat_0)
  let m2 := m2_1 * m2_2 * m2_3
  let m3_1 := (((15 : ℝ) / 8) * ntings ^ 2) + (((15 : ℝ) / 8) * ntings ^ 3)
  let m3_2 := Real.sin (2 * (lat_dash - lat_0)) * Real.cos (2 * (lat_dash + lat_0))
  let m3_3 := ((35 : ℝ) / 24) * ntings ^ 3 *
    Real.sin (3 * (lat_dash - lat_0)) * Real.cos (3 * (lat_dash + lat_0))
  let m3 := (m3_1 * m3_2) - m3_3
  b * f0 * (m1 - m2 + m3)

/-- The `while` loop of `gis.GridEastNorthToLatLon`, with fuel. State is the
pair `(m, lat_dash)`. `none` means the fuel ran out (the loop is still
running); `some s` means the loop exited with final state `s`. Each loop
iteration recomputes `m` from the current `lat_dash` and then adds the fixed
increment `(ntings - n0) / (a * f0)` to `lat_dash`, exactly as the source
does. -/
noncomputable def gridLoop (ntings : ℝ) : ℕ → ℝ × ℝ → Option (ℝ × ℝ)
  | 0, _ => none
  | fuel + 1, s =>
    let n0 : ℝ := -100000
    let f0 : ℝ := 0.9996012717
    let a := GetAiry1830.1
    if ntings - n0 - s.1 ≥ 0.001 then
      gridLoop ntings fuel (gridM ntings s.2, ((ntings - n0) / (a * f0)) + s.2)
    else some s

/-- Embeds `gis.GridEastNorthToLatLon` with fuel. The function body ends
after the loop without a return statement, so every terminating run returns
Python `None`: the inner `Option (ℝ × ℝ)` (a latitude/longitude pair or
`None`) is always `none` on termination, while the outer `Option` is `none`
when the fuel is exhausted. `etings` is accepted and never used, exactly as
in the source. -/
noncomputable def GridEastNorthToLatLon (ntings etings : ℝ) (fuel : ℕ) :
    Option (Option (ℝ × ℝ)) :=
  let lat_0 := DegToRad 49
  let n0 : ℝ := -100000
  let f0 : ℝ := 0.9996012717
  let a := GetAiry1830.1
  (gridLoop ntings fuel (0, ((ntings - n0) / (a * f0)) + lat_0)).map (fun _ => none)

/-- Termination predicate for the inverse projection at a given input: some
amount of fuel suffices for the loop to exit. -/
def GridInverseTerminates (ntings etings : ℝ) : Prop :=
  ∃ fuel r, GridEastNorthToLatLon ntings etings fuel = some r

/-! ## Dyadic interval arithmetic (for the numeric claim about the
forward projection)

All interval endpoints are integers at the fixed scale `SC = 2 ^ 120`; an
interval `I` contains the real `x` when `I.lo / SC ≤ x ≤ I.hi / SC`.
Integer endpoints keep every operation kernel-computable (`decide`), with
outward rounding by floor/ceiling division at each multiplication. -/

/-- The fixed dyadic scale, `2 ^ 120` as a literal. -/
def SC : ℤ := 1329227995784915872903807060280344576

/-- Ceiling division for a positive divisor. -/
def cdivI (a b : ℤ) : ℤ := -(-a / b)

/-- A dyadic interval: the real numbers between `lo / SC` and `hi / SC`. -/
structure Iv : Type where
  lo : ℤ
  hi : ℤ

/-- Membership of a real number in a dyadic interval. -/
def Iv.mem (I : Iv) (x : ℝ) : Prop := (I.lo : ℝ) / SC ≤ x ∧ x ≤ (I.hi : ℝ) / SC

/-- Interval addition (exact). -/
def Iv.add (I J : Iv) : Iv := ⟨I.lo + J.lo, I.hi + J.hi⟩

/-- Interval subtraction (exact). -/
def Iv.sub (I J : Iv) : Iv := ⟨I.lo - J.hi, I.hi - J.lo⟩

/-- Interval multiplication, four-corner rule with outward rounding. -/
def Iv.mul (I J : Iv) : Iv :=
  ⟨min (min (I.lo * J.lo) (I.lo * J.hi)) (min (I.hi * J.lo) (I.hi * J.hi)) / SC,
   cdivI (max (max (I.lo * J.lo) (I.lo * J.hi)) (max (I.hi * J.lo) (I.hi * J.hi))) SC⟩

/-- The interval containing exactly 1. -/
def Iv.one : Iv := ⟨SC, SC⟩

/-- Interval power by iterated interval multiplication. -/
def Iv.powN (I : Iv) : ℕ → Iv
  | 0 => Iv.one
  | k + 1 => (Iv.powN I k).mul I

/-- Interval reciprocal; meaningful when the interval is strictly positive. -/
def Iv.inv (I : Iv) : Iv := ⟨SC * SC / I.hi, cdivI (SC * SC) I.lo⟩

/-- Interval division (multiplication by the reciprocal). -/
def Iv.div (I J : Iv) : Iv := I.mul J.inv

/-- Interval division by a positive integer. -/
def Iv.divN (I : Iv) (k : ℤ) : Iv := ⟨I.lo / k, cdivI I.hi k⟩

/-- Interval multiplication by a nonnegative integer (exact). -/
def Iv.mulN (I : Iv) (k : ℤ) : Iv := ⟨I.lo * k, I.hi * k⟩

/-- Widen an interval by a margin of `d / SC` on both sides. -/
def Iv.widen (I : Iv) (d : ℤ) : Iv := ⟨I.lo - d, I.hi + d⟩

/-- The enclosure of the rational `p / q` (for positive `q`). -/
def Iv.ofRat (p q : ℤ) : Iv := ⟨p * SC / q, cdivI (p * SC) q⟩

/-- Bisection for the integer square root, with fuel; maintains the
invariant `lo ^ 2 ≤ n < (hi + 1) ^ 2`. -/
def sqrtFuel : ℕ → ℕ → ℕ → ℕ → ℕ × ℕ
  | 0, _, lo, hi => (lo, hi)
  | f + 1, n, lo, hi =>
    if lo = hi then (lo, hi)
    else
      let mid := (lo + hi + 1) / 2
      if mid * mid ≤ n then sqrtFuel f n mid hi else sqrtFuel f n lo (mid - 1)

/-- Interval square root (valid on intervals with nonnegative lower end). -/
def Iv.sqrtIv (I : Iv) : Iv :=
  ⟨((sqrtFuel 400 (I.lo * SC).toNat 0 (I.lo * SC).toNat).1 : ℤ),
   ((sqrtFuel 400 (I.hi * SC).toNat 0 (I.hi * SC).toNat).2 : ℤ) + 1⟩

/-- Taylor enclosure of the sine at the dyadic point `B / SC` (requires
`|B| ≤ SC`): the cubic Taylor polynomial widened by the remainder bound
`5/96 q^4`. -/
def sinB (B : ℤ) : Iv :=
  ((Iv.mk B B).sub (((Iv.mk B B).powN 3).divN 6)).widen
    ((((Iv.mk B B).powN 4).mulN 5).divN 96).hi

/-- Taylor enclosure of the cosine at the dyadic point `B / SC`. -/
def cosB (B : ℤ) : Iv :=
  (Iv.one.sub (((Iv.mk B B).powN 2).divN 2)).widen
    ((((Iv.mk B B).powN 4).mulN 5).divN 96).hi

/-- Enclosures of sine and cosine of `B * 2 ^ j / SC`: Taylor at the small
dyadic point `B / SC`, then `j` double-angle steps. -/
def sinCosB (B : ℤ) : ℕ → Iv × Iv
  | 0 => (sinB B, cosB B)
  | j + 1 =>
    let p := sinCosB B j
    ((p.1.mul p.2).mulN 2, Iv.one.sub ((p.1.mul p.1).mulN 2))

/-- The anchor numerator for a sine/cosine evaluation over an interval: the
midpoint rounded down to a multiple of `2 ^ k`, divided by `2 ^ k`. -/
def anchorB (I : Iv) (k : ℕ) : ℤ := (I.lo + I.hi) / (2 * 2 ^ k)

/-- Enclosure of the sine over an interval: the enclosure at the dyadic
anchor, widened by the distance to the endpoints (the sine is 1-Lipschitz). -/
def sinIvOn (I : Iv) (k : ℕ) : Iv :=
  ((sinCosB (anchorB I k) k).1).widen
    (max (anchorB I k * 2 ^ k - I.lo) (I.hi - anchorB I k * 2 ^ k))

/-- Enclosure of the cosine over an interval. -/
def cosIvOn (I : Iv) (k : ℕ) : Iv :=
  ((sinCosB (anchorB I k) k).2).widen
    (max (anchorB I k * 2 ^ k - I.lo) (I.hi - anchorB I k * 2 ^ k))

/-! ## Interval chain for the worked example of the forward projection -/

/-- Enclosure of pi, from the 20-decimal-digit bounds available in the
library. -/
def piIv : Iv :=
  ⟨(Iv.ofRat 314159265358979323846 100000000000000000000).lo,
   (Iv.ofRat 314159265358979323847 100000000000000000000).hi⟩

/-- Enclosure of the Airy 1830 semi-major axis. -/
def aIv : Iv := Iv.ofRat 6377563396 1000

/-- Enclosure of the Airy 1830 semi-minor axis. -/
def bIv : Iv := Iv.ofRat 6356256909 1000

/-- Enclosure of the OSGB central-meridian scale factor. -/
def f0Iv : Iv := Iv.ofRat 9996012717 10000000000

/-- Enclosure of an angle given in decimal degrees `p / q`, in radians. -/
def degIv (p q : ℤ) : Iv := ((Iv.ofRat p q).mul piIv).divN 180

/-- Enclosure of the latitude of the worked example, in radians. -/
def c1LatI : Iv := degIv 5265757 100000

/-- Enclosure of latitude minus origin latitude. -/
def c1DLatI : Iv := degIv 365757 100000

/-- Enclosure of latitude plus origin latitude. -/
def c1SLatI : Iv := degIv 10165757 100000

/-- Enclosure of longitude minus origin longitude. -/
def c1DLonI : Iv := degIv 371792 100000

/-- Enclosure of the sine of the latitude. -/
def c1Sin : Iv := sinIvOn c1LatI 10

/-- Enclosure of the cosine of the latitude. -/
def c1Cos : Iv := cosIvOn c1LatI 10

/-- Enclosure of the tangent of the latitude. -/
def c1Tan : Iv := c1Sin.div c1Cos

/-- Enclosure of the first eccentricity squared of Airy 1830. -/
def c1E2 : Iv := ((aIv.mul aIv).sub (bIv.mul bIv)).div (aIv.mul aIv)

/-- Enclosure of 1 - e2 sin(lat)^2. -/
def c1U : Iv := Iv.one.sub (c1E2.mul (c1Sin.powN 2))

/-- Enclosure of the square root of `c1U`. -/
def c1SqrtU : Iv := c1U.sqrtIv

/-- Enclosure of the transverse radius of curvature nu. -/
def c1V : Iv := (aIv.mul f0Iv).mul c1SqrtU.inv

/-- Enclosure of the meridional radius of curvature rho. -/
def c1P : Iv := ((aIv.mul f0Iv).mul (Iv.one.sub c1E2)).mul ((c1U.mul c1SqrtU).inv)

/-- Enclosure of nu / rho. -/
def c1VdivP : Iv := c1V.div c1P

/-- Enclosure of eta squared. -/
def c1N2 : Iv := c1VdivP.sub Iv.one

/-- Enclosure of the series parameter n. -/
def c1SN : Iv := (aIv.sub bIv).div (aIv.add bIv)

/-- Enclosure of the first meridional-arc term. -/
def c1M1 : Iv :=
  (((Iv.one.add c1SN).add ((Iv.ofRat 5 4).mul (c1SN.powN 2))).add
    ((Iv.ofRat 5 4).mul (c1SN.powN 3))).mul c1DLatI

/-- Enclosure of the sine of (lat - lat0). -/
def c1SinD : Iv := sinIvOn c1DLatI 10

/-- Enclosure of the cosine of (lat + lat0). -/
def c1CosS : Iv := cosIvOn c1SLatI 10

/-- Enclosure of the second meridional-arc term. -/
def c1M2 : Iv :=
  (((((Iv.ofRat 3 1).mul c1SN).add ((Iv.ofRat 3 1).mul (c1SN.powN 2))).add
    ((Iv.ofRat 21 8).mul (c1SN.powN 3))).mul c1SinD).mul c1CosS

/-- Enclosure of the sine of 2 (lat - lat0). -/
def c1Sin2D : Iv := sinIvOn (c1DLatI.mulN 2) 10

/-- Enclosure of the cosine of 2 (lat + lat0). -/
def c1Cos2S : Iv := cosIvOn (c1SLatI.mulN 2) 10

/-- Enclosure of the sine of 3 (lat - lat0). -/
def c1Sin3D : Iv := sinIvOn (c1DLatI.mulN 3) 10

/-- Enclosure of the cosine of 3 (lat + lat0). -/
def c1Cos3S : Iv := cosIvOn (c1SLatI.mulN 3) 10

/-- Enclosure of the third meridional-arc term. -/
def c1M3 : Iv :=
  ((((Iv.ofRat 15 8).mul (c1SN.powN 2)).add ((Iv.ofRat 15 8).mul (c1SN.powN 3))).mul
    (c1Sin2D.mul c1Cos2S)).sub
    ((((Iv.ofRat 35 24).mul (c1SN.powN 3)).mul c1Sin3D).mul c1Cos3S)

/-- Enclosure of the meridional arc M. -/
def c1M : Iv := (bIv.mul f0Iv).mul ((c1M1.sub c1M2).add c1M3)

/-- Enclosure of term I. -/
def c1TI : Iv := c1M.add (Iv.ofRat (-100000) 1)

/-- Enclosure of term II. -/
def c1TII : Iv := ((c1V.divN 2).mul c1Sin).mul c1Cos

/-- Enclosure of term III. -/
def c1TIII : Iv :=
  (((c1V.divN 24).mul c1Sin).mul (c1Cos.powN 3)).mul
    (((Iv.ofRat 5 1).sub (c1Tan.powN 2)).add ((Iv.ofRat 9 1).mul c1N2))

/-- Enclosure of term IIIA. -/
def c1TIIIA : Iv :=
  (((c1V.divN 720).mul c1Sin).mul (c1Cos.powN 5)).mul
    (((Iv.ofRat 61 1).sub ((Iv.ofRat 58 1).mul (c1Tan.powN 2))).add (c1Tan.powN 4))

/-- Enclosure of term IV. -/
def c1TIV : Iv := c1V.mul c1Cos

/-- Enclosure of term V. -/
def c1TV : Iv :=
  ((c1V.divN 6).mul (c1Cos.powN 3)).mul (c1VdivP.sub (c1Tan.powN 2))

/-- Enclosure of term VI. -/
def c1TVI : Iv :=
  ((c1V.divN 120).mul (c1Cos.powN 5)).mul
    (((((Iv.ofRat 5 1).sub ((Iv.ofRat 18 1).mul (c1Tan.powN 2))).add (c1Tan.powN 4)).add
        ((Iv.ofRat 14 1).mul c1N2)).sub
      (((Iv.ofRat 58 1).mul (c1Tan.powN 2)).mul c1N2))

/-- Enclosure of the northing of the worked example. -/
def c1N : Iv :=
  ((c1TI.add (c1TII.mul (c1DLonI.powN 2))).add (c1TIII.mul (c1DLonI.powN 4))).add
    (c1TIIIA.mul (c1DLonI.powN 6))

/-- Enclosure of the easting of the worked example. -/
def c1E : Iv :=
  ((Iv.ofRat 400000 1).add (c1TIV.mul c1DLonI)).add
    ((c1TV.mul (c1DLonI.powN 3)).add (c1TVI.mul (c1DLonI.powN 5)))

/-! # Theorems -/

/-! ## Helper lemmas -/

theorem atan2_zero_of_nonneg {x : ℝ} (hx : 0 ≤ x) : atan2 0 x = 0 := by
  rcases lt_or_eq_of_le hx with h | h
  · rw [atan2, if_pos h, zero_div, Real.arctan_zero]
  · rw [atan2, if_neg (by rw [← h]; exact lt_irrefl 0),
      if_neg (by rw [← h]; exact lt_irrefl 0), if_neg (lt_irrefl 0), if_neg (lt_irrefl 0)]

theorem radToDeg_degToRad (x : ℝ) : RadToDeg (DegToRad x) = x := by
  rw [RadToDeg, DegToRad]
  field_simp

theorem gridM_zero (L : ℝ) :
    gridM 0 L = 6356256.909 * 0.9996012717 * (L - DegToRad 49) := by
  simp only [gridM, GetAiry1830]
  norm_num

theorem gridLoop_succ (n : ℝ) (fuel : ℕ) (s : ℝ × ℝ) :
    gridLoop n (fuel + 1) s =
      if n - (-100000) - s.1 ≥ 0.001 then
        gridLoop n fuel (gridM n s.2, ((n - (-100000)) / (6377563.396 * 0.9996012717)) + s.2)
      else some s := by
  rw [gridLoop]
  simp only [GetAiry1830]

theorem gridInverse_run_zero : GridEastNorthToLatLon 0 400000 3 = some none := by
  have key : ∃ s, gridLoop 0 3
      (0, ((0 - (-100000)) / (6377563.396 * 0.9996012717)) + DegToRad 49) = some s := by
    rw [show (3 : ℕ) = 2 + 1 from rfl, gridLoop_succ, if_pos (by norm_num)]
    rw [show (2 : ℕ) = 1 + 1 from rfl, gridLoop_succ]
    simp only [gridM_zero]
    rw [if_pos (by ring_nf; norm_num)]
    rw [gridLoop_succ]
    rw [if_neg (by push_neg; ring_nf; norm_num)]
    exact ⟨_, rfl⟩
  obtain ⟨s, hs⟩ := key
  simp only [GridEastNorthToLatLon, GetAiry1830]
  rw [hs]
  rfl

/-! ## Claim C10 -/

/-- C10: for every input on which it terminates, `GridEastNorthToLatLon`
returns no latitude/longitude value: every terminating run returns Python
`None` (the body has no return statement after the loop). -/
theorem gridEastNorthToLatLon_returns_none (ntings etings : ℝ) (fuel : ℕ)
    (r : Option (ℝ × ℝ)) (h : GridEastNorthToLatLon ntings etings fuel = some r) :
    r = none := by
  simp only [GridEastNorthToLatLon, Option.map_eq_some'] at h
  obtain ⟨s, -, h2⟩ := h
  exact h2.symm

/-- Witness for C10: the run at northing 0, easting 400000 with fuel 3
terminates and indeed returns `None`. -/
theorem gridEastNorthToLatLon_returns_none_witness :
    (none : Option (ℝ × ℝ)) = none ∧ GridEastNorthToLatLon 0 400000 3 = some none :=
  ⟨gridEastNorthToLatLon_returns_none 0 400000 3 none gridInverse_run_zero,
   gridInverse_run_zero⟩

/-! ## Claim C4 -/

/-- C4 counterexample: the claim asserts the loop never ends for in-range
inputs, but at northing 0 (inside the OSGB range, with easting 400000) the
loop exits after two iterations: with the series parameter mistakenly set to
the input northing 0, all trigonometric terms of the meridional series are
multiplied by zero and `m` grows by about 99666 per iteration, exceeding
`ntings - n0` on the second iteration. -/
theorem gridInverse_nonterm_cex :
    (0 : ℝ) ≤ 0 ∧ (0 : ℝ) ≤ 1300000 ∧ (0 : ℝ) ≤ 400000 ∧ (400000 : ℝ) ≤ 700000 ∧
      GridInverseTerminates 0 400000 :=
  ⟨le_refl 0, by norm_num, by norm_num, by norm_num, 3, none, gridInverse_run_zero⟩

/-- C4 amended: the convergence loop is wrong (it updates its estimate by a
constant increment and uses the northing as the series parameter), but it is
not non-terminating on all in-range inputs: at northing 0, easting 400000 it
stops within 3 condition checks, and the function then returns Python `None`
rather than a latitude/longitude. -/
theorem gridInverse_terminates_at_zero :
    GridInverseTerminates 0 400000 ∧ GridEastNorthToLatLon 0 400000 3 = some none :=
  ⟨⟨3, none, gridInverse_run_zero⟩, gridInverse_run_zero⟩

/-! ## Claim C6 -/

/-- C6: for a non-member ellipsoid identifier the parameter lookup yields
nothing: the source leaves `a, b` unbound (after merely printing a message in
`LatLonHeightToEcefCartesian`), so the conversion crashes with
UnboundLocalError instead of surfacing a typed InvalidEllipsoid error. The
claim describes the specified behaviour; the code does not implement it. -/
theorem invalid_ellipsoid_unbound :
    ellipsoidParams EllipsoidRef.invalid = none ∧
    LatLonHeightToEcefCartesian 0 0 0 ECoordFormat.LatLonDd EllipsoidRef.invalid = none ∧
    CartesianToLatLon 1 1 1 EllipsoidRef.invalid = none :=
  ⟨rfl, rfl, rfl⟩

/-! ## Claim C8 -/

/-- C8: the haversine distance vanishes on equal points and is symmetric in
its two points, for both the degree and the radian input mode. -/
theorem distanceBetween_self_symm :
    (∀ lat lon : ℝ, ∀ degrees : Bool, DistanceBetween lat lon lat lon degrees = 0) ∧
    (∀ lat_1 lon_1 lat_2 lon_2 : ℝ, ∀ degrees : Bool,
      DistanceBetween lat_1 lon_1 lat_2 lon_2 degrees =
        DistanceBetween lat_2 lon_2 lat_1 lon_1 degrees) := by
  constructor
  · intro lat lon degrees
    cases degrees <;>
      simp [DistanceBetween, atan2_zero_of_nonneg, Real.sqrt_nonneg]
  · have core : ∀ p q r s : ℝ,
        DistanceBetween p q r s false = DistanceBetween r s p q false := by
      intro p q r s
      simp only [DistanceBetween, Bool.false_eq_true, if_false]
      have h1 : (p - r) / 2 = -((r - p) / 2) := by ring
      have h2 : (q - s) / 2 = -((s - q) / 2) := by ring
      rw [h1, h2]
      simp only [Real.sin_neg]
      ring_nf
    intro lat_1 lon_1 lat_2 lon_2 degrees
    cases degrees
    · exact core lat_1 lon_1 lat_2 lon_2
    · have e1 : ∀ a b c d : ℝ, DistanceBetween a b c d true =
          DistanceBetween (DegToRad a) (DegToRad b) (DegToRad c) (DegToRad d) false := by
        intro a b c d; rfl
      rw [e1, e1, core]

/-! ## Claim C7 -/

/-- C7 counterexample: zero distance is not the identity for every starting
latitude: at latitude 100 (outside the valid latitude range, but the claim
quantifies over every latitude) the arcsine folds the latitude back to 80. -/
theorem extrapolate_zero_cex :
    Extrapolate 100 0 0 0 true = (80, 0) ∧ ((80 : ℝ), (0 : ℝ)) ≠ ((100 : ℝ), (0 : ℝ)) := by
  constructor
  · simp only [Extrapolate, if_pos, zero_div, Real.sin_zero, Real.cos_zero, mul_zero,
      zero_mul, mul_one, add_zero, sub_zero]
    have hlat : DegToRad 100 = Real.pi - DegToRad 80 := by
      simp only [DegToRad]; ring
    have h80 : Real.arcsin (Real.sin (DegToRad 80)) = DegToRad 80 := by
      apply Real.arcsin_sin
      · have := Real.pi_pos
        simp only [DegToRad]
        nlinarith
      · have := Real.pi_pos
        simp only [DegToRad]
        nlinarith
    have hsin : Real.sin (DegToRad 100) = Real.sin (DegToRad 80) := by
      rw [hlat, Real.sin_pi_sub]
    have harc : Real.arcsin (Real.sin (DegToRad 100)) = DegToRad 80 := by
      rw [hsin, h80]
    have hpos : (0 : ℝ) ≤ 1 - Real.sin (DegToRad 100) * Real.sin (DegToRad 80) := by
      rw [hsin]
      have := Real.sin_sq_le_one (DegToRad 80)
      nlinarith [Real.sin_sq_le_one (DegToRad 80)]
    rw [harc]
    rw [atan2_zero_of_nonneg hpos]
    have hz : DegToRad 0 = 0 := by simp [DegToRad]
    rw [hz, zero_add, radToDeg_degToRad]
    have hz2 : RadToDeg 0 = 0 := by simp [RadToDeg]
    rw [hz2]
  · intro h
    have := congrArg Prod.fst h
    norm_num at this

/-- C7 amended: for every starting latitude in the valid range -90 to 90
(longitude and bearing arbitrary), extrapolating over distance 0 returns the
starting point unchanged. -/
theorem extrapolate_zero_dist (lat lon brg : ℝ) (h1 : -90 ≤ lat) (h2 : lat ≤ 90) :
    Extrapolate lat lon brg 0 true = (lat, lon) := by
  simp only [Extrapolate, if_pos, zero_div, Real.sin_zero, Real.cos_zero, mul_zero,
    zero_mul, mul_one, add_zero, sub_zero]
  have hpi := Real.pi_pos
  have harc : Real.arcsin (Real.sin (DegToRad lat)) = DegToRad lat := by
    apply Real.arcsin_sin
    · simp only [DegToRad]; nlinarith
    · simp only [DegToRad]; nlinarith
  rw [harc]
  have hpos : (0 : ℝ) ≤ 1 - Real.sin (DegToRad lat) * Real.sin (DegToRad lat) := by
    nlinarith [Real.sin_sq_le_one (DegToRad lat)]
  rw [atan2_zero_of_nonneg hpos, add_zero, radToDeg_degToRad, radToDeg_degToRad]

/-- Witness for the amended C7 at latitude 45, longitude 7, bearing 123. -/
theorem extrapolate_zero_dist_witness :
    (-90 : ℝ) ≤ 45 ∧ (45 : ℝ) ≤ 90 ∧ Extrapolate 45 7 123 0 true = (45, 7) :=
  ⟨by norm_num, by norm_num, extrapolate_zero_dist 45 7 123 (by norm_num) (by norm_num)⟩

/-! ## Claim C2 -/

theorem pyTrunc_intCast (n : ℤ) : pyTrunc (n : ℚ) = n := by
  unfold pyTrunc
  split
  · exact Int.floor_intCast n
  · rw [show (-(n : ℚ)) = ((-n : ℤ) : ℚ) by push_cast; ring, Int.floor_intCast]
    ring

theorem modIdx_fst (y : ℚ) : pyTrunc ((y - pyMod y StepSize) / StepSize) = ⌊y / StepSize⌋ := by
  have key : (y - pyMod y StepSize) / StepSize = ((⌊y / StepSize⌋ : ℤ) : ℚ) := by
    rw [pyMod]
    have : y - (y - StepSize * ⌊y / StepSize⌋) = StepSize * ⌊y / StepSize⌋ := by ring
    rw [this, StepSize]
    norm_num
  rw [key, pyTrunc_intCast]

theorem modIdx_snd (y : ℚ) :
    pyTrunc (((y - pyMod y StepSize) + StepSize) / StepSize) = ⌊y / StepSize⌋ + 1 := by
  have key : ((y - pyMod y StepSize) + StepSize) / StepSize =
      (((⌊y / StepSize⌋ + 1 : ℤ)) : ℚ) := by
    rw [pyMod]
    have : y - (y - StepSize * ⌊y / StepSize⌋) + StepSize =
        StepSize * (⌊y / StepSize⌋ + 1) := by ring
    rw [this, StepSize]
    push_cast
    norm_num
  rw [key, pyTrunc_intCast]

theorem pyGet_none_of_length_le {α : Type} (l : List α) (i : ℤ)
    (h0 : 0 ≤ i) (h : (l.length : ℤ) ≤ i) : pyGet l i = none := by
  rw [pyGet, if_pos h0, List.get?_eq_none]
  omega

theorem pyGet_isSome {α : Type} (l : List α) (i : ℤ)
    (hlo : -(l.length : ℤ) ≤ i) (hhi : i < l.length) : (pyGet l i).isSome := by
  rw [pyGet]
  rcases le_or_lt 0 i with h0 | h0
  · rw [if_pos h0]
    have : i.toNat < l.length := by omega
    rw [List.get?_eq_get this]
    rfl
  · rw [if_neg (by omega), if_pos (by omega)]
    have : l.length - (-i).toNat < l.length := by omega
    rw [List.get?_eq_get this]
    rfl

theorem pyGet_mem {α : Type} {l : List α} {i : ℤ} {a : α}
    (h : pyGet l i = some a) : a ∈ l := by
  rw [pyGet] at h
  split at h
  · exact List.get?_mem h
  · split at h
    · exact List.get?_mem h
    · exact absurd h (by simp)

theorem get?_replicate {α : Type} (a : α) (n i : ℕ) :
    (List.replicate n a).get? i = if i < n then some a else none := by
  induction n generalizing i with
  | zero => simp
  | succ n ih =>
    cases i with
    | zero => simp [List.replicate_succ]
    | succ i => simpa [List.replicate_succ, Nat.succ_lt_succ_iff] using ih i

theorem egm96Grid_length : egm96Grid.length = 721 := by
  rw [egm96Grid, List.length_replicate]

theorem egm96Grid_row_length : ∀ r ∈ egm96Grid, r.length = 1441 := by
  intro r hr
  rw [egm96Grid] at hr
  rw [List.eq_of_mem_replicate hr, List.length_replicate]

theorem getHeight_upper_none (grid : List (List ℚ)) (lat lon : ℚ)
    (hrows : grid.length = 721) (hcols : ∀ r ∈ grid, r.length = 1441)
    (h : 180 ≤ lat ∨ 360 ≤ lon) : GetHeight grid lat lon = none := by
  rcases h with hla | hlo
  · have hidx : (721 : ℤ) ≤ ⌊lat / StepSize⌋ + 1 := by
      have : (720 : ℤ) ≤ ⌊lat / StepSize⌋ := by
        rw [Int.le_floor]
        rw [StepSize] at *
        push_cast
        linarith
      omega
    have hnone : pyGet grid (pyTrunc (((lat - pyMod lat StepSize) + StepSize) / StepSize)) =
        none := by
      rw [modIdx_snd]
      exact pyGet_none_of_length_le _ _ (by omega) (by rw [hrows]; exact_mod_cast hidx)
    cases h1 : pyGet grid (pyTrunc ((lat - pyMod lat StepSize) / StepSize)) with
    | none => simp [GetHeight, h1]
    | some row1 =>
      cases h2 : pyGet row1 (pyTrunc ((lon - pyMod lon StepSize) / StepSize)) with
      | none => simp [GetHeight, h1, h2]
      | some q11 => simp [GetHeight, h1, h2, hnone]
  · have hidx : (1441 : ℤ) ≤ ⌊lon / StepSize⌋ + 1 := by
      have : (1440 : ℤ) ≤ ⌊lon / StepSize⌋ := by
        rw [Int.le_floor]
        rw [StepSize] at *
        push_cast
        linarith
      omega
    cases h1 : pyGet grid (pyTrunc ((lat - pyMod lat StepSize) / StepSize)) with
    | none => simp [GetHeight, h1]
    | some row1 =>
      have hnone1 : pyGet row1 (pyTrunc (((lon - pyMod lon StepSize) + StepSize) /
          StepSize)) = none := by
        rw [modIdx_snd]
        refine pyGet_none_of_length_le _ _ (by omega) ?_
        rw [hcols row1 (pyGet_mem h1)]
        exact_mod_cast hidx
      cases h2 : pyGet row1 (pyTrunc ((lon - pyMod lon StepSize) / StepSize)) with
      | none => simp [GetHeight, h1, h2]
      | some q11 =>
        cases h3 : pyGet grid (pyTrunc (((lat - pyMod lat StepSize) + StepSize) /
            StepSize)) with
        | none => simp [GetHeight, h1, h2, h3]
        | some row2 =>
          cases h4 : pyGet row2 (pyTrunc ((lon - pyMod lon StepSize) / StepSize)) with
          | none => simp [GetHeight, h1, h2, h3, h4]
          | some q12 => simp [GetHeight, h1, h2, h3, h4, hnone1]

theorem getHeight_wrap_isSome (grid : List (List ℚ)) (lat lon : ℚ)
    (hrows : grid.length = 721) (hcols : ∀ r ∈ grid, r.length = 1441)
    (ha : -180 < lat) (hb : lat < 0) (hc : 0 ≤ lon) (hd : lon < 360) :
    (GetHeight grid lat lon).isSome := by
  have hr1 : -(720 : ℤ) ≤ ⌊lat / StepSize⌋ := by
    rw [Int.le_floor]
    rw [StepSize]
    push_cast
    linarith
  have hr2 : ⌊lat / StepSize⌋ < 0 := by
    rw [Int.floor_lt]
    rw [StepSize]
    push_cast
    linarith
  have hc1 : (0 : ℤ) ≤ ⌊lon / StepSize⌋ := by
    rw [Int.le_floor]
    rw [StepSize]
    push_cast
    linarith
  have hc2 : ⌊lon / StepSize⌋ < 1440 := by
    rw [Int.floor_lt]
    rw [StepSize]
    push_cast
    linarith
  have g1 : (pyGet grid (pyTrunc ((lat - pyMod lat StepSize) / StepSize))).isSome := by
    rw [modIdx_fst]
    exact pyGet_isSome _ _ (by rw [hrows]; omega) (by rw [hrows]; omega)
  obtain ⟨row1, h1⟩ := Option.isSome_iff_exists.mp g1
  have g3 : (pyGet grid (pyTrunc (((lat - pyMod lat StepSize) + StepSize) /
      StepSize))).isSome := by
    rw [modIdx_snd]
    exact pyGet_isSome _ _ (by rw [hrows]; omega) (by rw [hrows]; omega)
  obtain ⟨row2, h3⟩ := Option.isSome_iff_exists.mp g3
  have hl1 : row1.length = 1441 := hcols row1 (pyGet_mem h1)
  have hl2 : row2.length = 1441 := hcols row2 (pyGet_mem h3)
  have g2 : (pyGet row1 (pyTrunc ((lon - pyMod lon StepSize) / StepSize))).isSome := by
    rw [modIdx_fst]
    exact pyGet_isSome _ _ (by rw [hl1]; omega) (by rw [hl1]; omega)
  obtain ⟨q11, h2⟩ := Option.isSome_iff_exists.mp g2
  have g4 : (pyGet row2 (pyTrunc ((lon - pyMod lon StepSize) / StepSize))).isSome := by
    rw [modIdx_fst]
    exact pyGet_isSome _ _ (by rw [hl2]; omega) (by rw [hl2]; omega)
  obtain ⟨q12, h4⟩ := Option.isSome_iff_exists.mp g4
  have g5 : (pyGet row1 (pyTrunc (((lon - pyMod lon StepSize) + StepSize) /
      StepSize))).isSome := by
    rw [modIdx_snd]
    exact pyGet_isSome _ _ (by rw [hl1]; omega) (by rw [hl1]; omega)
  obtain ⟨q21, h5⟩ := Option.isSome_iff_exists.mp g5
  have g6 : (pyGet row2 (pyTrunc (((lon - pyMod lon StepSize) + StepSize) /
      StepSize))).isSome := by
    rw [modIdx_snd]
    exact pyGet_isSome _ _ (by rw [hl2]; omega) (by rw [hl2]; omega)
  obtain ⟨q22, h6⟩ := Option.isSome_iff_exists.mp g6
  simp [GetHeight, h1, h2, h3, h4, h5, h6]

/-- C5 counterexample: a query at unsigned latitude -0.1, longitude 0 is
outside the covered range (unsigned latitudes start at 0), yet it does not
fail with an index error: Python negative indexing wraps to the last grid
row and a height is returned. -/
theorem getHeight_cex :
    (-1 / 10 : ℚ) < 0 ∧ (GetHeight egm96Grid (-1 / 10) 0).isSome :=
  ⟨by norm_num,
   getHeight_wrap_isSome egm96Grid (-1 / 10) 0 egm96Grid_length egm96Grid_row_length
     (by norm_num) (by norm_num) (by norm_num) (by norm_num)⟩

/-- C5 amended: queries beyond the upper end of the covered range (latitude
at least 180 or longitude at least 360) fail with an index error, but
queries below the range (negative latitude) do not: Python negative
indexing wraps around and a height is returned. Stated over any grid with
the dimensions of the bundled EGM96 table (721 rows of 1441 samples). -/
theorem getHeight_range (grid : List (List ℚ)) (lat lon : ℚ)
    (hrows : grid.length = 721) (hcols : ∀ r ∈ grid, r.length = 1441) :
    ((180 ≤ lat ∨ 360 ≤ lon) → GetHeight grid lat lon = none) ∧
    (-180 < lat → lat < 0 → 0 ≤ lon → lon < 360 → (GetHeight grid lat lon).isSome) :=
  ⟨getHeight_upper_none grid lat lon hrows hcols,
   getHeight_wrap_isSome grid lat lon hrows hcols⟩

/-- Witness for the amended C5: on the modelled grid, the query at latitude
200 fails with an index error, and the wrapping half holds at latitude -0.1. -/
theorem getHeight_range_witness :
    GetHeight egm96Grid 200 0 = none ∧ (GetHeight egm96Grid (-1 / 10) 0).isSome :=
  ⟨(getHeight_range egm96Grid 200 0 egm96Grid_length egm96Grid_row_length).1
      (Or.inl (by norm_num)),
   (getHeight_range egm96Grid (-1 / 10) 0 egm96Grid_length egm96Grid_row_length).2
     (by norm_num) (by norm_num) (by norm_num) (by norm_num)⟩

/-! ## Soundness of the dyadic interval arithmetic -/

theorem SC_posZ : (0 : ℤ) < SC := by norm_num [SC]

theorem SC_posR : (0 : ℝ) < (SC : ℝ) := by exact_mod_cast SC_posZ

theorem idiv_le_real {a b : ℤ} (hb : 0 < b) : ((a / b : ℤ) : ℝ) ≤ (a : ℝ) / b := by
  have hb' : (0 : ℝ) < (b : ℝ) := by exact_mod_cast hb
  rw [le_div_iff hb']
  have hz : b * (a / b) ≤ a := by
    have h1 := Int.ediv_add_emod a b
    have h2 : 0 ≤ a % b := Int.emod_nonneg a (ne_of_gt hb)
    linarith
  calc ((a / b : ℤ) : ℝ) * b = ((b * (a / b) : ℤ) : ℝ) := by push_cast; ring
    _ ≤ a := by exact_mod_cast hz

theorem le_cdiv_real {a b : ℤ} (hb : 0 < b) : (a : ℝ) / b ≤ ((cdivI a b : ℤ) : ℝ) := by
  have h := idiv_le_real (a := -a) hb
  rw [cdivI]
  push_cast at h ⊢
  rw [neg_div] at h
  linarith

theorem Iv.mem_congr {I : Iv} {x y : ℝ} (h : I.mem x) (e : x = y) : I.mem y := e ▸ h

theorem Iv.mem_self (B : ℤ) : (Iv.mk B B).mem ((B : ℝ) / SC) :=
  ⟨le_refl _, le_refl _⟩

theorem Iv.mem_one : Iv.one.mem 1 := by
  constructor <;> simp [Iv.one, div_self (ne_of_gt SC_posR)]

theorem Iv.mem_ofRat {p q : ℤ} (hq : 0 < q) : (Iv.ofRat p q).mem ((p : ℝ) / (q : ℝ)) := by
  have hq' : (0 : ℝ) < (q : ℝ) := by exact_mod_cast hq
  have e : ((p * SC : ℤ) : ℝ) / q / SC = (p : ℝ) / (q : ℝ) := by
    push_cast
    rw [div_div, mul_div_mul_right _ _ (ne_of_gt SC_posR)]
  constructor
  · calc ((Iv.ofRat p q).lo : ℝ) / SC ≤ ((p * SC : ℤ) : ℝ) / q / SC := by
          apply div_le_div_of_nonneg_right ?_ SC_posR.le
          exact idiv_le_real hq
      _ = (p : ℝ) / q := e
  · calc (p : ℝ) / q = ((p * SC : ℤ) : ℝ) / q / SC := e.symm
      _ ≤ ((Iv.ofRat p q).hi : ℝ) / SC := by
          apply div_le_div_of_nonneg_right ?_ SC_posR.le
          exact le_cdiv_real hq

theorem Iv.mem_add {I J : Iv} {x y : ℝ} (hx : I.mem x) (hy : J.mem y) :
    (I.add J).mem (x + y) := by
  obtain ⟨h1, h2⟩ := hx
  obtain ⟨h3, h4⟩ := hy
  constructor
  · rw [Iv.add, show ((Iv.mk (I.lo + J.lo) (I.hi + J.hi)).lo : ℝ) = (I.lo : ℝ) + J.lo by
      push_cast; ring, add_div]
    linarith
  · rw [Iv.add, show ((Iv.mk (I.lo + J.lo) (I.hi + J.hi)).hi : ℝ) = (I.hi : ℝ) + J.hi by
      push_cast; ring, add_div]
    linarith

theorem Iv.mem_sub {I J : Iv} {x y : ℝ} (hx : I.mem x) (hy : J.mem y) :
    (I.sub J).mem (x - y) := by
  obtain ⟨h1, h2⟩ := hx
  obtain ⟨h3, h4⟩ := hy
  constructor
  · rw [Iv.sub, show ((Iv.mk (I.lo - J.hi) (I.hi - J.lo)).lo : ℝ) = (I.lo : ℝ) - J.hi by
      push_cast; ring, sub_div]
    linarith
  · rw [Iv.sub, show ((Iv.mk (I.lo - J.hi) (I.hi - J.lo)).hi : ℝ) = (I.hi : ℝ) - J.lo by
      push_cast; ring, sub_div]
    linarith

theorem mul_corners {a b c d u v : ℝ} (h1 : a ≤ u) (h2 : u ≤ b) (h3 : c ≤ v) (h4 : v ≤ d) :
    min (min (a * c) (a * d)) (min (b * c) (b * d)) ≤ u * v ∧
    u * v ≤ max (max (a * c) (a * d)) (max (b * c) (b * d)) := by
  constructor
  · rcases le_total 0 v with hv | hv
    · have hav : a * v ≤ u * v := mul_le_mul_of_nonneg_right h1 hv
      rcases le_total 0 a with ha | ha
      · have hac : a * c ≤ a * v := mul_le_mul_of_nonneg_left h3 ha
        have : min (min (a * c) (a * d)) (min (b * c) (b * d)) ≤ a * c :=
          le_trans (min_le_left _ _) (min_le_left _ _)
        linarith
      · have had : a * d ≤ a * v := mul_le_mul_of_nonpos_left h4 ha
        have : min (min (a * c) (a * d)) (min (b * c) (b * d)) ≤ a * d :=
          le_trans (min_le_left _ _) (min_le_right _ _)
        linarith
    · have hbv : b * v ≤ u * v := mul_le_mul_of_nonpos_right h2 hv
      rcases le_total 0 b with hb | hb
      · have hbc : b * c ≤ b * v := mul_le_mul_of_nonneg_left h3 hb
        have : min (min (a * c) (a * d)) (min (b * c) (b * d)) ≤ b * c :=
          le_trans (min_le_right _ _) (min_le_left _ _)
        linarith
      · have hbd : b * d ≤ b * v := mul_le_mul_of_nonpos_left h4 hb
        have : min (min (a * c) (a * d)) (min (b * c) (b * d)) ≤ b * d :=
          le_trans (min_le_right _ _) (min_le_right _ _)
        linarith
  · rcases le_total 0 v with hv | hv
    · have hbv : u * v ≤ b * v := mul_le_mul_of_nonneg_right h2 hv
      rcases le_total 0 b with hb | hb
      · have hbd : b * v ≤ b * d := mul_le_mul_of_nonneg_left h4 hb
        have : b * d ≤ max (max (a * c) (a * d)) (max (b * c) (b * d)) :=
          le_trans (le_max_right _ _) (le_max_right _ _)
        linarith
      · have hbc : b * v ≤ b * c := mul_le_mul_of_nonpos_left h3 hb
        have : b * c ≤ max (max (a * c) (a * d)) (max (b * c) (b * d)) :=
          le_trans (le_max_left _ _) (le_max_right _ _)
        linarith
    · have hav : u * v ≤ a * v := mul_le_mul_of_nonpos_right h1 hv
      rcases le_total 0 a with ha | ha
      · have had : a * v ≤ a * d := mul_le_mul_of_nonneg_left h4 ha
        have : a * d ≤ max (max (a * c) (a * d)) (max (b * c) (b * d)) :=
          le_trans (le_max_right _ _) (le_max_left _ _)
        linarith
      · have hac : a * v ≤ a * c := mul_le_mul_of_nonpos_left h3 ha
        have : a * c ≤ max (max (a * c) (a * d)) (max (b * c) (b * d)) :=
          le_trans (le_max_left _ _) (le_max_left _ _)
        linarith

theorem Iv.mem_mul {I J : Iv} {x y : ℝ} (hx : I.mem x) (hy : J.mem y) :
    (I.mul J).mem (x * y) := by
  have hSS : (0 : ℝ) < (SC : ℝ) * SC := mul_pos SC_posR SC_posR
  have h := mul_corners hx.1 hx.2 hy.1 hy.2
  have corner_lo : ∀ p q : ℤ,
      min (min (I.lo * J.lo) (I.lo * J.hi)) (min (I.hi * J.lo) (I.hi * J.hi)) ≤ p * q →
      (((I.mul J).lo : ℤ) : ℝ) / SC ≤ (p : ℝ) / SC * ((q : ℝ) / SC) := by
    intro p q hpq
    have e : (p : ℝ) / SC * ((q : ℝ) / SC) = ((p * q : ℤ) : ℝ) / ((SC : ℝ) * SC) := by
      push_cast; ring
    rw [e]
    calc (((I.mul J).lo : ℤ) : ℝ) / SC
        ≤ ((min (min (I.lo * J.lo) (I.lo * J.hi)) (min (I.hi * J.lo) (I.hi * J.hi)) : ℤ) : ℝ)
          / SC / SC := div_le_div_of_nonneg_right (idiv_le_real SC_posZ) SC_posR.le
      _ = ((min (min (I.lo * J.lo) (I.lo * J.hi)) (min (I.hi * J.lo) (I.hi * J.hi)) : ℤ) : ℝ)
          / ((SC : ℝ) * SC) := by rw [div_div]
      _ ≤ ((p * q : ℤ) : ℝ) / ((SC : ℝ) * SC) := by
          apply div_le_div_of_nonneg_right ?_ hSS.le
          exact_mod_cast hpq
  have corner_hi : ∀ p q : ℤ,
      p * q ≤ max (max (I.lo * J.lo) (I.lo * J.hi)) (max (I.hi * J.lo) (I.hi * J.hi)) →
      (p : ℝ) / SC * ((q : ℝ) / SC) ≤ (((I.mul J).hi : ℤ) : ℝ) / SC := by
    intro p q hpq
    have e : (p : ℝ) / SC * ((q : ℝ) / SC) = ((p * q : ℤ) : ℝ) / ((SC : ℝ) * SC) := by
      push_cast; ring
    rw [e]
    calc ((p * q : ℤ) : ℝ) / ((SC : ℝ) * SC)
        ≤ ((max (max (I.lo * J.lo) (I.lo * J.hi)) (max (I.hi * J.lo) (I.hi * J.hi)) : ℤ) : ℝ)
          / ((SC : ℝ) * SC) := by
          apply div_le_div_of_nonneg_right ?_ hSS.le
          exact_mod_cast hpq
      _ = ((max (max (I.lo * J.lo) (I.lo * J.hi)) (max (I.hi * J.lo) (I.hi * J.hi)) : ℤ) : ℝ)
          / SC / SC := by rw [div_div]
      _ ≤ (((I.mul J).hi : ℤ) : ℝ) / SC := div_le_div_of_nonneg_right (le_cdiv_real SC_posZ)
          SC_posR.le
  constructor
  · refine le_trans ?_ h.1
    refine le_min (le_min ?_ ?_) (le_min ?_ ?_)
    · exact corner_lo I.lo J.lo (le_trans (min_le_left _ _) (min_le_left _ _))
    · exact corner_lo I.lo J.hi (le_trans (min_le_left _ _) (min_le_right _ _))
    · exact corner_lo I.hi J.lo (le_trans (min_le_right _ _) (min_le_left _ _))
    · exact corner_lo I.hi J.hi (le_trans (min_le_right _ _) (min_le_right _ _))
  · refine le_trans h.2 ?_
    refine max_le (max_le ?_ ?_) (max_le ?_ ?_)
    · exact corner_hi I.lo J.lo (le_trans (le_max_left _ _) (le_max_left _ _))
    · exact corner_hi I.lo J.hi (le_trans (le_max_right _ _) (le_max_left _ _))
    · exact corner_hi I.hi J.lo (le_trans (le_max_left _ _) (le_max_right _ _))
    · exact corner_hi I.hi J.hi (le_trans (le_max_right _ _) (le_max_right _ _))

theorem Iv.mem_powN {I : Iv} {x : ℝ} (hx : I.mem x) : ∀ n : ℕ, (I.powN n).mem (x ^ n)
  | 0 => by rw [pow_zero]; exact Iv.mem_one
  | n + 1 => by
    rw [pow_succ, Iv.powN]
    exact Iv.mem_mul (Iv.mem_powN hx n) hx

theorem Iv.hi_pos_of_mem {I : Iv} {x : ℝ} (hx : I.mem x) (hlo : 0 < I.lo) : 0 < I.hi := by
  by_contra hcon
  push_neg at hcon
  have h1 : (0 : ℝ) < (I.lo : ℝ) / SC := div_pos (by exact_mod_cast hlo) SC_posR
  have h2 : ((I.hi : ℤ) : ℝ) / SC ≤ 0 := by
    apply div_nonpos_of_nonpos_of_nonneg ?_ SC_posR.le
    exact_mod_cast hcon
  linarith [hx.1, hx.2]

theorem Iv.mem_inv {I : Iv} {x : ℝ} (hx : I.mem x) (hlo : 0 < I.lo) :
    (I.inv).mem x⁻¹ := by
  have hhi : 0 < I.hi := Iv.hi_pos_of_mem hx hlo
  have hloR : (0 : ℝ) < (I.lo : ℝ) := by exact_mod_cast hlo
  have hhiR : (0 : ℝ) < (I.hi : ℝ) := by exact_mod_cast hhi
  have hxpos : 0 < x := lt_of_lt_of_le (div_pos hloR SC_posR) hx.1
  have e1 : ((SC * SC : ℤ) : ℝ) / (I.hi : ℝ) / SC = 1 / ((I.hi : ℝ) / SC) := by
    push_cast
    rw [div_div, mul_div_mul_right _ _ (ne_of_gt SC_posR), one_div_div]
  have e2 : ((SC * SC : ℤ) : ℝ) / (I.lo : ℝ) / SC = 1 / ((I.lo : ℝ) / SC) := by
    push_cast
    rw [div_div, mul_div_mul_right _ _ (ne_of_gt SC_posR), one_div_div]
  constructor
  · calc ((I.inv.lo : ℤ) : ℝ) / SC
        ≤ ((SC * SC : ℤ) : ℝ) / (I.hi : ℝ) / SC :=
          div_le_div_of_nonneg_right (idiv_le_real hhi) SC_posR.le
      _ = 1 / ((I.hi : ℝ) / SC) := e1
      _ ≤ x⁻¹ := by
          rw [inv_eq_one_div]
          exact one_div_le_one_div_of_le hxpos hx.2
  · calc x⁻¹ = 1 / x := inv_eq_one_div x
      _ ≤ 1 / ((I.lo : ℝ) / SC) :=
          one_div_le_one_div_of_le (div_pos hloR SC_posR) hx.1
      _ = ((SC * SC : ℤ) : ℝ) / (I.lo : ℝ) / SC := e2.symm
      _ ≤ ((I.inv.hi : ℤ) : ℝ) / SC :=
          div_le_div_of_nonneg_right (le_cdiv_real hlo) SC_posR.le

theorem Iv.mem_div {I J : Iv} {x y : ℝ} (hx : I.mem x) (hy : J.mem y) (hlo : 0 < J.lo) :
    (I.div J).mem (x / y) := by
  rw [div_eq_mul_inv]
  exact Iv.mem_mul hx (Iv.mem_inv hy hlo)

theorem Iv.mem_divN {I : Iv} {x : ℝ} {k : ℤ} (hx : I.mem x) (hk : 0 < k) :
    (I.divN k).mem (x / (k : ℝ)) := by
  have hkR : (0 : ℝ) < (k : ℝ) := by exact_mod_cast hk
  constructor
  · calc (((I.divN k).lo : ℤ) : ℝ) / SC ≤ (I.lo : ℝ) / k / SC :=
          div_le_div_of_nonneg_right (idiv_le_real hk) SC_posR.le
      _ = (I.lo : ℝ) / SC / k := by ring
      _ ≤ x / k := div_le_div_of_nonneg_right hx.1 hkR.le
  · calc x / k ≤ (I.hi : ℝ) / SC / k := div_le_div_of_nonneg_right hx.2 hkR.le
      _ = (I.hi : ℝ) / k / SC := by ring
      _ ≤ (((I.divN k).hi : ℤ) : ℝ) / SC :=
          div_le_div_of_nonneg_right (le_cdiv_real hk) SC_posR.le

theorem Iv.mem_mulN {I : Iv} {x : ℝ} {k : ℤ} (hx : I.mem x) (hk : 0 ≤ k) :
    (I.mulN k).mem (x * (k : ℝ)) := by
  have hkR : (0 : ℝ) ≤ (k : ℝ) := by exact_mod_cast hk
  constructor
  · calc (((I.mulN k).lo : ℤ) : ℝ) / SC = (I.lo : ℝ) / SC * k := by
          rw [Iv.mulN]
          push_cast
          ring
      _ ≤ x * k := mul_le_mul_of_nonneg_right hx.1 hkR
  · calc x * k ≤ (I.hi : ℝ) / SC * k := mul_le_mul_of_nonneg_right hx.2 hkR
      _ = (((I.mulN k).hi : ℤ) : ℝ) / SC := by
          rw [Iv.mulN]
          push_cast
          ring

theorem Iv.mem_widen_of_close {I : Iv} {c x : ℝ} {d : ℤ} (hc : I.mem c)
    (hd : |x - c| ≤ (d : ℝ) / SC) : (I.widen d).mem x := by
  rw [abs_le] at hd
  constructor
  · rw [Iv.widen, show ((Iv.mk (I.lo - d) (I.hi + d)).lo : ℝ) = (I.lo : ℝ) - d by
      push_cast; ring, sub_div]
    have := hc.1
    linarith [hd.1, hd.2]
  · rw [Iv.widen, show ((Iv.mk (I.lo - d) (I.hi + d)).hi : ℝ) = (I.hi : ℝ) + d by
      push_cast; ring, add_div]
    have := hc.2
    linarith [hd.1, hd.2]

theorem sqrtFuel_inv (f : ℕ) : ∀ n lo hi : ℕ, lo ≤ hi → lo * lo ≤ n →
    n < (hi + 1) * (hi + 1) →
    (sqrtFuel f n lo hi).1 * (sqrtFuel f n lo hi).1 ≤ n ∧
      n < ((sqrtFuel f n lo hi).2 + 1) * ((sqrtFuel f n lo hi).2 + 1) := by
  induction f with
  | zero =>
    intro n lo hi _ h2 h3
    exact ⟨h2, h3⟩
  | succ f ih =>
    intro n lo hi h1 h2 h3
    rw [sqrtFuel]
    split
    · exact ⟨h2, h3⟩
    · next hne =>
      dsimp only
      split
      · next hmid =>
        exact ih n ((lo + hi + 1) / 2) hi (by omega) hmid h3
      · next hmid =>
        push_neg at hmid
        refine ih n lo ((lo + hi + 1) / 2 - 1) (by omega) h2 ?_
        have he : (lo + hi + 1) / 2 - 1 + 1 = (lo + hi + 1) / 2 := by omega
        rw [he]
        omega

theorem Iv.mem_sqrtIv {I : Iv} {x : ℝ} (hx : I.mem x) (hlo : 0 ≤ I.lo) :
    (I.sqrtIv).mem (Real.sqrt x) := by
  have hloSC : (0 : ℤ) ≤ I.lo * SC := mul_nonneg hlo SC_posZ.le
  have hhi : 0 ≤ I.hi := by
    by_contra hcon
    push_neg at hcon
    have h1 : (0 : ℝ) ≤ (I.lo : ℝ) / SC := div_nonneg (by exact_mod_cast hlo) SC_posR.le
    have h2 : ((I.hi : ℤ) : ℝ) / SC < 0 :=
      div_neg_of_neg_of_pos (by exact_mod_cast hcon) SC_posR
    linarith [hx.1, hx.2]
  have hhiSC : (0 : ℤ) ≤ I.hi * SC := mul_nonneg hhi SC_posZ.le
  obtain ⟨hs1, -⟩ := sqrtFuel_inv 400 (I.lo * SC).toNat 0 (I.lo * SC).toNat
    (Nat.zero_le _) (by omega) (by nlinarith [Nat.zero_le (I.lo * SC).toNat])
  obtain ⟨-, hs2⟩ := sqrtFuel_inv 400 (I.hi * SC).toNat 0 (I.hi * SC).toNat
    (Nat.zero_le _) (by omega) (by nlinarith [Nat.zero_le (I.hi * SC).toNat])
  constructor
  · set r1 : ℕ := (sqrtFuel 400 (I.lo * SC).toNat 0 (I.lo * SC).toNat).1 with hr1
    have hr1sq : ((r1 : ℝ)) * (r1 : ℝ) ≤ (I.lo : ℝ) * SC := by
      have hz : ((r1 * r1 : ℕ) : ℤ) ≤ I.lo * SC := by
        calc ((r1 * r1 : ℕ) : ℤ) ≤ ((I.lo * SC).toNat : ℤ) := by exact_mod_cast hs1
          _ = I.lo * SC := Int.toNat_of_nonneg hloSC
      have : ((r1 : ℝ)) * (r1 : ℝ) ≤ ((I.lo * SC : ℤ) : ℝ) := by exact_mod_cast hz
      calc ((r1 : ℝ)) * (r1 : ℝ) ≤ ((I.lo * SC : ℤ) : ℝ) := this
        _ = (I.lo : ℝ) * SC := by push_cast; ring
    have hstep : ((r1 : ℝ)) / SC ≤ Real.sqrt ((I.lo : ℝ) / SC) := by
      rw [show ((r1 : ℝ)) / SC = Real.sqrt (((r1 : ℝ) / SC) ^ 2) by
        rw [Real.sqrt_sq (div_nonneg (Nat.cast_nonneg r1) SC_posR.le)]]
      apply Real.sqrt_le_sqrt
      rw [div_pow, div_le_div_iff (pow_pos SC_posR 2) SC_posR]
      calc ((r1 : ℝ)) ^ 2 * SC = (r1 : ℝ) * (r1 : ℝ) * SC := by ring
        _ ≤ (I.lo : ℝ) * SC * SC := by nlinarith [SC_posR]
        _ = (I.lo : ℝ) * (SC : ℝ) ^ 2 := by ring
    calc ((I.sqrtIv.lo : ℤ) : ℝ) / SC = ((r1 : ℝ)) / SC := by norm_num [Iv.sqrtIv, hr1]
      _ ≤ Real.sqrt ((I.lo : ℝ) / SC) := hstep
      _ ≤ Real.sqrt x := Real.sqrt_le_sqrt hx.1
  · set r2 : ℕ := (sqrtFuel 400 (I.hi * SC).toNat 0 (I.hi * SC).toNat).2 with hr2
    have hr2sq : (I.hi : ℝ) * SC ≤ ((r2 : ℝ) + 1) * ((r2 : ℝ) + 1) := by
      have hz : I.hi * SC < ((r2 : ℤ) + 1) * ((r2 : ℤ) + 1) := by
        calc I.hi * SC = ((I.hi * SC).toNat : ℤ) := (Int.toNat_of_nonneg hhiSC).symm
          _ < (((r2 + 1) * (r2 + 1) : ℕ) : ℤ) := by exact_mod_cast hs2
          _ = ((r2 : ℤ) + 1) * ((r2 : ℤ) + 1) := by push_cast; ring
      have : (I.hi : ℝ) * SC < ((r2 : ℝ) + 1) * ((r2 : ℝ) + 1) := by exact_mod_cast hz
      linarith
    have hstep : Real.sqrt ((I.hi : ℝ) / SC) ≤ ((r2 : ℝ) + 1) / SC := by
      rw [show ((r2 : ℝ) + 1) / SC = Real.sqrt ((((r2 : ℝ) + 1) / SC) ^ 2) by
        rw [Real.sqrt_sq (div_nonneg (by positivity) SC_posR.le)]]
      apply Real.sqrt_le_sqrt
      rw [div_pow, div_le_div_iff SC_posR (pow_pos SC_posR 2)]
      calc (I.hi : ℝ) * (SC : ℝ) ^ 2 = (I.hi : ℝ) * SC * SC := by ring
        _ ≤ ((r2 : ℝ) + 1) * ((r2 : ℝ) + 1) * SC := by nlinarith [SC_posR]
        _ = ((r2 : ℝ) + 1) ^ 2 * SC := by ring
    calc Real.sqrt x ≤ Real.sqrt ((I.hi : ℝ) / SC) := Real.sqrt_le_sqrt hx.2
      _ ≤ ((r2 : ℝ) + 1) / SC := hstep
      _ = ((I.sqrtIv.hi : ℤ) : ℝ) / SC := by norm_num [Iv.sqrtIv, hr2]

theorem abs_sin_sub_sin (x y : ℝ) : |Real.sin x - Real.sin y| ≤ |x - y| := by
  rw [Real.sin_sub_sin, abs_mul, abs_mul]
  have h1 : |Real.sin ((x - y) / 2)| ≤ |(x - y) / 2| := Real.abs_sin_le_abs
  have h2 : |Real.cos ((x + y) / 2)| ≤ 1 := Real.abs_cos_le_one _
  calc |(2 : ℝ)| * |Real.sin ((x - y) / 2)| * |Real.cos ((x + y) / 2)|
      ≤ |(2 : ℝ)| * |(x - y) / 2| * 1 := by
        apply mul_le_mul ?_ h2 (abs_nonneg _) ?_
        · exact mul_le_mul le_rfl h1 (abs_nonneg _) (abs_nonneg _)
        · positivity
    _ = |x - y| := by
        rw [abs_div, mul_one, abs_two]
        ring

theorem abs_cos_sub_cos (x y : ℝ) : |Real.cos x - Real.cos y| ≤ |x - y| := by
  rw [Real.cos_sub_cos, abs_mul, abs_mul]
  have h1 : |Real.sin ((x - y) / 2)| ≤ |(x - y) / 2| := Real.abs_sin_le_abs
  have h2 : |Real.sin ((x + y) / 2)| ≤ 1 := Real.abs_sin_le_one _
  calc |(-2 : ℝ)| * |Real.sin ((x + y) / 2)| * |Real.sin ((x - y) / 2)|
      ≤ |(-2 : ℝ)| * 1 * |(x - y) / 2| := by
        apply mul_le_mul ?_ h1 (abs_nonneg _) ?_
        · exact mul_le_mul le_rfl h2 (abs_nonneg _) (abs_nonneg _)
        · positivity
    _ = |x - y| := by
        rw [abs_div, mul_one, show |(-2 : ℝ)| = 2 from by norm_num, abs_two]
        ring

theorem sinB_mem (B : ℤ) (hB : |B| ≤ SC) : (sinB B).mem (Real.sin ((B : ℝ) / SC)) := by
  have hq1 : |(B : ℝ) / SC| ≤ 1 := by
    rw [abs_div, abs_of_pos SC_posR, div_le_one SC_posR]
    exact_mod_cast hB
  have hbound := Real.sin_bound hq1
  have hcore : ((Iv.mk B B).sub (((Iv.mk B B).powN 3).divN 6)).mem
      ((B : ℝ) / SC - ((B : ℝ) / SC) ^ 3 / 6) := by
    have h := Iv.mem_sub (Iv.mem_self B)
      (Iv.mem_divN (Iv.mem_powN (Iv.mem_self B) 3) (by norm_num : (0 : ℤ) < 6))
    exact Iv.mem_congr h (by norm_num)
  apply Iv.mem_widen_of_close hcore
  have herr : ((B : ℝ) / SC) ^ 4 * (5 : ℝ) / 96 ≤
      (((((Iv.mk B B).powN 4).mulN 5).divN 96).hi : ℝ) / SC := by
    have hmem := Iv.mem_divN
      (Iv.mem_mulN (Iv.mem_powN (Iv.mem_self B) 4) (by norm_num : (0 : ℤ) ≤ 5))
      (by norm_num : (0 : ℤ) < 96)
    have h2 := hmem.2
    calc ((B : ℝ) / SC) ^ 4 * (5 : ℝ) / 96
        = ((B : ℝ) / SC) ^ 4 * ((5 : ℤ) : ℝ) / ((96 : ℤ) : ℝ) := by norm_num
      _ ≤ _ := h2
  calc |Real.sin ((B : ℝ) / SC) - ((B : ℝ) / SC - ((B : ℝ) / SC) ^ 3 / 6)|
      ≤ |(B : ℝ) / SC| ^ 4 * (5 / 96) := hbound
    _ = ((B : ℝ) / SC) ^ 4 * 5 / 96 := by
        rw [← abs_pow, abs_of_nonneg (by positivity)]
        ring
    _ ≤ (((((Iv.mk B B).powN 4).mulN 5).divN 96).hi : ℝ) / SC := herr

theorem cosB_mem (B : ℤ) (hB : |B| ≤ SC) : (cosB B).mem (Real.cos ((B : ℝ) / SC)) := by
  have hq1 : |(B : ℝ) / SC| ≤ 1 := by
    rw [abs_div, abs_of_pos SC_posR, div_le_one SC_posR]
    exact_mod_cast hB
  have hbound := Real.cos_bound hq1
  have hcore : (Iv.one.sub (((Iv.mk B B).powN 2).divN 2)).mem
      (1 - ((B : ℝ) / SC) ^ 2 / 2) := by
    have h := Iv.mem_sub Iv.mem_one
      (Iv.mem_divN (Iv.mem_powN (Iv.mem_self B) 2) (by norm_num : (0 : ℤ) < 2))
    exact Iv.mem_congr h (by norm_num)
  apply Iv.mem_widen_of_close hcore
  have herr : ((B : ℝ) / SC) ^ 4 * (5 : ℝ) / 96 ≤
      (((((Iv.mk B B).powN 4).mulN 5).divN 96).hi : ℝ) / SC := by
    have hmem := Iv.mem_divN
      (Iv.mem_mulN (Iv.mem_powN (Iv.mem_self B) 4) (by norm_num : (0 : ℤ) ≤ 5))
      (by norm_num : (0 : ℤ) < 96)
    have h2 := hmem.2
    calc ((B : ℝ) / SC) ^ 4 * (5 : ℝ) / 96
        = ((B : ℝ) / SC) ^ 4 * ((5 : ℤ) : ℝ) / ((96 : ℤ) : ℝ) := by norm_num
      _ ≤ _ := h2
  calc |Real.cos ((B : ℝ) / SC) - (1 - ((B : ℝ) / SC) ^ 2 / 2)|
      ≤ |(B : ℝ) / SC| ^ 4 * (5 / 96) := hbound
    _ = ((B : ℝ) / SC) ^ 4 * 5 / 96 := by
        rw [← abs_pow, abs_of_nonneg (by positivity)]
        ring
    _ ≤ (((((Iv.mk B B).powN 4).mulN 5).divN 96).hi : ℝ) / SC := herr

theorem sinCosB_mem (B : ℤ) (hB : |B| ≤ SC) :
    ∀ j : ℕ, (sinCosB B j).1.mem (Real.sin ((B : ℝ) * 2 ^ j / SC)) ∧
      (sinCosB B j).2.mem (Real.cos ((B : ℝ) * 2 ^ j / SC))
  | 0 => by
    rw [pow_zero, mul_one]
    exact ⟨sinB_mem B hB, cosB_mem B hB⟩
  | j + 1 => by
    obtain ⟨hs, hc⟩ := sinCosB_mem B hB j
    have harg : (B : ℝ) * 2 ^ (j + 1) / SC = 2 * ((B : ℝ) * 2 ^ j / SC) := by ring
    constructor
    · rw [harg, Real.sin_two_mul]
      have h := Iv.mem_mulN (Iv.mem_mul hs hc) (by norm_num : (0 : ℤ) ≤ 2)
      exact Iv.mem_congr h (by push_cast; ring)
    · rw [harg]
      have hcos2 : Real.cos (2 * ((B : ℝ) * 2 ^ j / SC)) =
          1 - 2 * Real.sin ((B : ℝ) * 2 ^ j / SC) ^ 2 := by
        have h1 := Real.cos_two_mul ((B : ℝ) * 2 ^ j / SC)
        have h2 := Real.sin_sq_add_cos_sq ((B : ℝ) * 2 ^ j / SC)
        linarith
      rw [hcos2]
      have h := Iv.mem_sub Iv.mem_one
        (Iv.mem_mulN (Iv.mem_mul hs hs) (by norm_num : (0 : ℤ) ≤ 2))
      exact Iv.mem_congr h (by push_cast; ring)

theorem close_to_anchor {I : Iv} {x : ℝ} (hx : I.mem x) (A : ℤ) :
    |x - (A : ℝ) / SC| ≤ ((max (A - I.lo) (I.hi - A) : ℤ) : ℝ) / SC := by
  obtain ⟨h1, h2⟩ := hx
  have ha : (A : ℝ) / SC - x ≤ ((A - I.lo : ℤ) : ℝ) / SC := by
    push_cast
    rw [sub_div]
    linarith
  have hb : x - (A : ℝ) / SC ≤ ((I.hi - A : ℤ) : ℝ) / SC := by
    push_cast
    rw [sub_div]
    linarith
  have hmax1 : ((A - I.lo : ℤ) : ℝ) / SC ≤ ((max (A - I.lo) (I.hi - A) : ℤ) : ℝ) / SC := by
    apply div_le_div_of_nonneg_right ?_ SC_posR.le
    exact_mod_cast le_max_left (A - I.lo) (I.hi - A)
  have hmax2 : ((I.hi - A : ℤ) : ℝ) / SC ≤ ((max (A - I.lo) (I.hi - A) : ℤ) : ℝ) / SC := by
    apply div_le_div_of_nonneg_right ?_ SC_posR.le
    exact_mod_cast le_max_right (A - I.lo) (I.hi - A)
  rw [abs_le]
  constructor
  · linarith
  · linarith

theorem sinIvOn_mem {I : Iv} {x : ℝ} (k : ℕ) (hx : I.mem x)
    (hB : |anchorB I k| ≤ SC) : (sinIvOn I k).mem (Real.sin x) := by
  have hmem := (sinCosB_mem (anchorB I k) hB k).1
  apply Iv.mem_widen_of_close hmem
  have hθ : (anchorB I k : ℝ) * 2 ^ k / SC = ((anchorB I k * 2 ^ k : ℤ) : ℝ) / SC := by
    push_cast
    ring
  calc |Real.sin x - Real.sin ((anchorB I k : ℝ) * 2 ^ k / SC)|
      ≤ |x - (anchorB I k : ℝ) * 2 ^ k / SC| := abs_sin_sub_sin _ _
    _ = |x - ((anchorB I k * 2 ^ k : ℤ) : ℝ) / SC| := by rw [hθ]
    _ ≤ _ := close_to_anchor hx _

theorem cosIvOn_mem {I : Iv} {x : ℝ} (k : ℕ) (hx : I.mem x)
    (hB : |anchorB I k| ≤ SC) : (cosIvOn I k).mem (Real.cos x) := by
  have hmem := (sinCosB_mem (anchorB I k) hB k).2
  apply Iv.mem_widen_of_close hmem
  have hθ : (anchorB I k : ℝ) * 2 ^ k / SC = ((anchorB I k * 2 ^ k : ℤ) : ℝ) / SC := by
    push_cast
    ring
  calc |Real.cos x - Real.cos ((anchorB I k : ℝ) * 2 ^ k / SC)|
      ≤ |x - (anchorB I k : ℝ) * 2 ^ k / SC| := abs_cos_sub_cos _ _
    _ = |x - ((anchorB I k * 2 ^ k : ℤ) : ℝ) / SC| := by rw [hθ]
    _ ≤ _ := close_to_anchor hx _

theorem piIv_mem : piIv.mem Real.pi := by
  have h1 := (Iv.mem_ofRat (p := 314159265358979323846) (q := 100000000000000000000)
    (by norm_num)).1
  have h2 := (Iv.mem_ofRat (p := 314159265358979323847) (q := 100000000000000000000)
    (by norm_num)).2
  constructor
  · calc ((piIv.lo : ℤ) : ℝ) / SC
        ≤ ((314159265358979323846 : ℤ) : ℝ) / ((100000000000000000000 : ℤ) : ℝ) := h1
      _ ≤ Real.pi := by
          have := Real.pi_gt_d20
          norm_num at this ⊢
          linarith
  · calc Real.pi ≤ ((314159265358979323847 : ℤ) : ℝ) / ((100000000000000000000 : ℤ) : ℝ) := by
          have := Real.pi_lt_d20
          norm_num at this ⊢
          linarith
      _ ≤ ((piIv.hi : ℤ) : ℝ) / SC := h2

theorem degIv_mem {p q : ℤ} (hq : 0 < q) :
    (degIv p q).mem ((p : ℝ) / (q : ℝ) * Real.pi / 180) := by
  have h := Iv.mem_divN (Iv.mem_mul (Iv.mem_ofRat (p := p) hq) piIv_mem)
    (by norm_num : (0 : ℤ) < 180)
  exact Iv.mem_congr h (by norm_num)

theorem rpow_neg_half (u : ℝ) (hu : 0 < u) : u ^ (-0.5 : ℝ) = (Real.sqrt u)⁻¹ := by
  rw [show (-0.5 : ℝ) = -(1 / 2) by norm_num, Real.rpow_neg hu.le, ← Real.sqrt_eq_rpow]

theorem rpow_neg_threehalf (u : ℝ) (hu : 0 < u) :
    u ^ (-1.5 : ℝ) = (u * Real.sqrt u)⁻¹ := by
  rw [show (-1.5 : ℝ) = -(1 + 1 / 2) by norm_num, Real.rpow_neg hu.le,
    Real.rpow_add hu, Real.rpow_one, ← Real.sqrt_eq_rpow]

set_option maxRecDepth 4000000 in
theorem c1_mem : c1E.mem (LatLonToGridEastNorth 52.65757 1.71792).1 ∧
    c1N.mem (LatLonToGridEastNorth 52.65757 1.71792).2 := by
  have h_a : aIv.mem (6377563.396 : ℝ) :=
    Iv.mem_congr (Iv.mem_ofRat (p := 6377563396) (by norm_num)) (by norm_num)
  have h_b : bIv.mem (6356256.909 : ℝ) :=
    Iv.mem_congr (Iv.mem_ofRat (p := 6356256909) (by norm_num)) (by norm_num)
  have h_f0 : f0Iv.mem (0.9996012717 : ℝ) :=
    Iv.mem_congr (Iv.mem_ofRat (p := 9996012717) (by norm_num)) (by norm_num)
  have h_lat : c1LatI.mem (DegToRad 52.65757) :=
    Iv.mem_congr (degIv_mem (p := 5265757) (by norm_num))
      (by rw [DegToRad]; norm_num)
  have h_dlat : c1DLatI.mem (DegToRad 52.65757 - DegToRad 49) :=
    Iv.mem_congr (degIv_mem (p := 365757) (by norm_num))
      (by rw [DegToRad, DegToRad]; rw [show ((365757 : ℤ) : ℝ) / ((100000 : ℤ) : ℝ) =
        (52.65757 : ℝ) - 49 by norm_num]; ring)
  have h_slat : c1SLatI.mem (DegToRad 52.65757 + DegToRad 49) :=
    Iv.mem_congr (degIv_mem (p := 10165757) (by norm_num))
      (by rw [DegToRad, DegToRad]; rw [show ((10165757 : ℤ) : ℝ) / ((100000 : ℤ) : ℝ) =
        (52.65757 : ℝ) + 49 by norm_num]; ring)
  have h_dlon : c1DLonI.mem (DegToRad 1.71792 - DegToRad (-2)) :=
    Iv.mem_congr (degIv_mem (p := 371792) (by norm_num))
      (by rw [DegToRad, DegToRad]; rw [show ((371792 : ℤ) : ℝ) / ((100000 : ℤ) : ℝ) =
        (1.71792 : ℝ) - (-2) by norm_num]; ring)
  have h_2dlat : (c1DLatI.mulN 2).mem (2 * (DegToRad 52.65757 - DegToRad 49)) :=
    Iv.mem_congr (Iv.mem_mulN h_dlat (by norm_num)) (by push_cast; ring)
  have h_2slat : (c1SLatI.mulN 2).mem (2 * (DegToRad 52.65757 + DegToRad 49)) :=
    Iv.mem_congr (Iv.mem_mulN h_slat (by norm_num)) (by push_cast; ring)
  have h_3dlat : (c1DLatI.mulN 3).mem (3 * (DegToRad 52.65757 - DegToRad 49)) :=
    Iv.mem_congr (Iv.mem_mulN h_dlat (by norm_num)) (by push_cast; ring)
  have h_3slat : (c1SLatI.mulN 3).mem (3 * (DegToRad 52.65757 + DegToRad 49)) :=
    Iv.mem_congr (Iv.mem_mulN h_slat (by norm_num)) (by push_cast; ring)
  have h_sin : c1Sin.mem (Real.sin (DegToRad 52.65757)) :=
    sinIvOn_mem 10 h_lat (by decide)
  have h_cos : c1Cos.mem (Real.cos (DegToRad 52.65757)) :=
    cosIvOn_mem 10 h_lat (by decide)
  have h_tan : c1Tan.mem (Real.tan (DegToRad 52.65757)) :=
    Iv.mem_congr (Iv.mem_div h_sin h_cos (by decide))
      (Real.tan_eq_sin_div_cos _).symm
  have h_sinD : c1SinD.mem (Real.sin (DegToRad 52.65757 - DegToRad 49)) :=
    sinIvOn_mem 10 h_dlat (by decide)
  have h_cosS : c1CosS.mem (Real.cos (DegToRad 52.65757 + DegToRad 49)) :=
    cosIvOn_mem 10 h_slat (by decide)
  have h_sin2D : c1Sin2D.mem (Real.sin (2 * (DegToRad 52.65757 - DegToRad 49))) :=
    sinIvOn_mem 10 h_2dlat (by decide)
  have h_cos2S : c1Cos2S.mem (Real.cos (2 * (DegToRad 52.65757 + DegToRad 49))) :=
    cosIvOn_mem 10 h_2slat (by decide)
  have h_sin3D : c1Sin3D.mem (Real.sin (3 * (DegToRad 52.65757 - DegToRad 49))) :=
    sinIvOn_mem 10 h_3dlat (by decide)
  have h_cos3S : c1Cos3S.mem (Real.cos (3 * (DegToRad 52.65757 + DegToRad 49))) :=
    cosIvOn_mem 10 h_3slat (by decide)
  have h_e2 : c1E2.mem ((6377563.396 ^ 2 - 6356256.909 ^ 2) / 6377563.396 ^ 2 : ℝ) :=
    Iv.mem_congr
      (Iv.mem_div (Iv.mem_sub (Iv.mem_mul h_a h_a) (Iv.mem_mul h_b h_b))
        (Iv.mem_mul h_a h_a) (by decide))
      (by ring)
  have h_u : c1U.mem (1 - ((6377563.396 ^ 2 - 6356256.909 ^ 2) / 6377563.396 ^ 2 *
      Real.sin (DegToRad 52.65757) ^ 2) : ℝ) :=
    Iv.mem_sub Iv.mem_one (Iv.mem_mul h_e2 (Iv.mem_powN h_sin 2))
  have hupos : (0 : ℝ) < 1 - ((6377563.396 ^ 2 - 6356256.909 ^ 2) / 6377563.396 ^ 2 *
      Real.sin (DegToRad 52.65757) ^ 2) := by
    have hc : (0 : ℝ) < (c1U.lo : ℝ) / SC :=
      div_pos (by exact_mod_cast (by decide : (0 : ℤ) < c1U.lo)) SC_posR
    exact lt_of_lt_of_le hc h_u.1
  have h_squ : c1SqrtU.mem (Real.sqrt (1 - ((6377563.396 ^ 2 - 6356256.909 ^ 2) /
      6377563.396 ^ 2 * Real.sin (DegToRad 52.65757) ^ 2))) :=
    Iv.mem_sqrtIv h_u (by decide)
  have h_v : c1V.mem ((6377563.396 : ℝ) * 0.9996012717 *
      (1 - ((6377563.396 ^ 2 - 6356256.909 ^ 2) / 6377563.396 ^ 2 *
        Real.sin (DegToRad 52.65757) ^ 2)) ^ (-0.5 : ℝ)) :=
    Iv.mem_congr (Iv.mem_mul (Iv.mem_mul h_a h_f0) (Iv.mem_inv h_squ (by decide)))
      (by rw [rpow_neg_half _ hupos])
  have h_p : c1P.mem ((6377563.396 : ℝ) * 0.9996012717 *
      (1 - (6377563.396 ^ 2 - 6356256.909 ^ 2) / 6377563.396 ^ 2) *
      (1 - ((6377563.396 ^ 2 - 6356256.909 ^ 2) / 6377563.396 ^ 2 *
        Real.sin (DegToRad 52.65757) ^ 2)) ^ (-1.5 : ℝ)) :=
    Iv.mem_congr
      (Iv.mem_mul (Iv.mem_mul (Iv.mem_mul h_a h_f0) (Iv.mem_sub Iv.mem_one h_e2))
        (Iv.mem_inv (Iv.mem_mul h_u h_squ) (by decide)))
      (by rw [rpow_neg_threehalf _ hupos])
  have h_vdp := Iv.mem_div h_v h_p (by decide)
  have h_n2 := Iv.mem_sub h_vdp Iv.mem_one
  have h_n : c1SN.mem (((6377563.396 : ℝ) - 6356256.909) / (6377563.396 + 6356256.909)) :=
    Iv.mem_div (Iv.mem_sub h_a h_b) (Iv.mem_add h_a h_b) (by decide)
  have h54 : (Iv.ofRat 5 4).mem ((5 : ℝ) / 4) :=
    Iv.mem_congr (Iv.mem_ofRat (p := 5) (by norm_num)) (by norm_num)
  have h_m1 := Iv.mem_mul
    ((Iv.mem_add (Iv.mem_add (Iv.mem_add Iv.mem_one h_n)
        (Iv.mem_mul h54 (Iv.mem_powN h_n 2)))
      (Iv.mem_mul h54 (Iv.mem_powN h_n 3)))) h_dlat
  have h3c : (Iv.ofRat 3 1).mem (3 : ℝ) :=
    Iv.mem_congr (Iv.mem_ofRat (p := 3) (by norm_num)) (by norm_num)
  have h218 : (Iv.ofRat 21 8).mem ((21 : ℝ) / 8) :=
    Iv.mem_congr (Iv.mem_ofRat (p := 21) (by norm_num)) (by norm_num)
  have h_m2 := Iv.mem_mul (Iv.mem_mul
    (Iv.mem_add (Iv.mem_add (Iv.mem_mul h3c h_n) (Iv.mem_mul h3c (Iv.mem_powN h_n 2)))
      (Iv.mem_mul h218 (Iv.mem_powN h_n 3))) h_sinD) h_cosS
  have h158 : (Iv.ofRat 15 8).mem ((15 : ℝ) / 8) :=
    Iv.mem_congr (Iv.mem_ofRat (p := 15) (by norm_num)) (by norm_num)
  have h3524 : (Iv.ofRat 35 24).mem ((35 : ℝ) / 24) :=
    Iv.mem_congr (Iv.mem_ofRat (p := 35) (by norm_num)) (by norm_num)
  have h_m3 := Iv.mem_sub
    (Iv.mem_mul
      (Iv.mem_add (Iv.mem_mul h158 (Iv.mem_powN h_n 2))
        (Iv.mem_mul h158 (Iv.mem_powN h_n 3)))
      (Iv.mem_mul h_sin2D h_cos2S))
    (Iv.mem_mul (Iv.mem_mul (Iv.mem_mul h3524 (Iv.mem_powN h_n 3)) h_sin3D) h_cos3S)
  have h_m := Iv.mem_mul (Iv.mem_mul h_b h_f0) (Iv.mem_add (Iv.mem_sub h_m1 h_m2) h_m3)
  have hN0 : (Iv.ofRat (-100000) 1).mem ((-100000 : ℝ)) :=
    Iv.mem_congr (Iv.mem_ofRat (p := -100000) (by norm_num)) (by norm_num)
  have h_tI := Iv.mem_add h_m hN0
  have h_v2 : (c1V.divN 2).mem ((6377563.396 : ℝ) * 0.9996012717 *
      (1 - ((6377563.396 ^ 2 - 6356256.909 ^ 2) / 6377563.396 ^ 2 *
        Real.sin (DegToRad 52.65757) ^ 2)) ^ (-0.5 : ℝ) / 2) :=
    Iv.mem_congr (Iv.mem_divN h_v (by norm_num)) (by norm_num)
  have h_tII := Iv.mem_mul (Iv.mem_mul h_v2 h_sin) h_cos
  have h_v24 := Iv.mem_congr (Iv.mem_divN h_v (by norm_num : (0 : ℤ) < 24))
    (by norm_num :
      (6377563.396 : ℝ) * 0.9996012717 *
        (1 - ((6377563.396 ^ 2 - 6356256.909 ^ 2) / 6377563.396 ^ 2 *
          Real.sin (DegToRad 52.65757) ^ 2)) ^ (-0.5 : ℝ) / ((24 : ℤ) : ℝ) =
      (6377563.396 : ℝ) * 0.9996012717 *
        (1 - ((6377563.396 ^ 2 - 6356256.909 ^ 2) / 6377563.396 ^ 2 *
          Real.sin (DegToRad 52.65757) ^ 2)) ^ (-0.5 : ℝ) / 24)
  have h5c : (Iv.ofRat 5 1).mem (5 : ℝ) :=
    Iv.mem_congr (Iv.mem_ofRat (p := 5) (by norm_num)) (by norm_num)
  have h9c : (Iv.ofRat 9 1).mem (9 : ℝ) :=
    Iv.mem_congr (Iv.mem_ofRat (p := 9) (by norm_num)) (by norm_num)
  have h_tIII := Iv.mem_mul
    (Iv.mem_mul (Iv.mem_mul h_v24 h_sin) (Iv.mem_powN h_cos 3))
    (Iv.mem_add (Iv.mem_sub h5c (Iv.mem_powN h_tan 2)) (Iv.mem_mul h9c h_n2))
  have h_v720 := Iv.mem_congr (Iv.mem_divN h_v (by norm_num : (0 : ℤ) < 720))
    (by norm_num :
      (6377563.396 : ℝ) * 0.9996012717 *
        (1 - ((6377563.396 ^ 2 - 6356256.909 ^ 2) / 6377563.396 ^ 2 *
          Real.sin (DegToRad 52.65757) ^ 2)) ^ (-0.5 : ℝ) / ((720 : ℤ) : ℝ) =
      (6377563.396 : ℝ) * 0.9996012717 *
        (1 - ((6377563.396 ^ 2 - 6356256.909 ^ 2) / 6377563.396 ^ 2 *
          Real.sin (DegToRad 52.65757) ^ 2)) ^ (-0.5 : ℝ) / 720)
  have h61c : (Iv.ofRat 61 1).mem (61 : ℝ) :=
    Iv.mem_congr (Iv.mem_ofRat (p := 61) (by norm_num)) (by norm_num)
  have h58c : (Iv.ofRat 58 1).mem (58 : ℝ) :=
    Iv.mem_congr (Iv.mem_ofRat (p := 58) (by norm_num)) (by norm_num)
  have h_tIIIA := Iv.mem_mul
    (Iv.mem_mul (Iv.mem_mul h_v720 h_sin) (Iv.mem_powN h_cos 5))
    (Iv.mem_add (Iv.mem_sub h61c (Iv.mem_mul h58c (Iv.mem_powN h_tan 2)))
      (Iv.mem_powN h_tan 4))
  have h_tIV := Iv.mem_mul h_v h_cos
  have h_v6 := Iv.mem_congr (Iv.mem_divN h_v (by norm_num : (0 : ℤ) < 6))
    (by norm_num :
      (6377563.396 : ℝ) * 0.9996012717 *
        (1 - ((6377563.396 ^ 2 - 6356256.909 ^ 2) / 6377563.396 ^ 2 *
          Real.sin (DegToRad 52.65757) ^ 2)) ^ (-0.5 : ℝ) / ((6 : ℤ) : ℝ) =
      (6377563.396 : ℝ) * 0.9996012717 *
        (1 - ((6377563.396 ^ 2 - 6356256.909 ^ 2) / 6377563.396 ^ 2 *
          Real.sin (DegToRad 52.65757) ^ 2)) ^ (-0.5 : ℝ) / 6)
  have h_tV := Iv.mem_mul (Iv.mem_mul h_v6 (Iv.mem_powN h_cos 3))
    (Iv.mem_sub h_vdp (Iv.mem_powN h_tan 2))
  have h_v120 := Iv.mem_congr (Iv.mem_divN h_v (by norm_num : (0 : ℤ) < 120))
    (by norm_num :
      (6377563.396 : ℝ) * 0.9996012717 *
        (1 - ((6377563.396 ^ 2 - 6356256.909 ^ 2) / 6377563.396 ^ 2 *
          Real.sin (DegToRad 52.65757) ^ 2)) ^ (-0.5 : ℝ) / ((120 : ℤ) : ℝ) =
      (6377563.396 : ℝ) * 0.9996012717 *
        (1 - ((6377563.396 ^ 2 - 6356256.909 ^ 2) / 6377563.396 ^ 2 *
          Real.sin (DegToRad 52.65757) ^ 2)) ^ (-0.5 : ℝ) / 120)
  have h18c : (Iv.ofRat 18 1).mem (18 : ℝ) :=
    Iv.mem_congr (Iv.mem_ofRat (p := 18) (by norm_num)) (by norm_num)
  have h14c : (Iv.ofRat 14 1).mem (14 : ℝ) :=
    Iv.mem_congr (Iv.mem_ofRat (p := 14) (by norm_num)) (by norm_num)
  have h_tVI := Iv.mem_mul (Iv.mem_mul h_v120 (Iv.mem_powN h_cos 5))
    (Iv.mem_sub
      (Iv.mem_add
        (Iv.mem_add (Iv.mem_sub h5c (Iv.mem_mul h18c (Iv.mem_powN h_tan 2)))
          (Iv.mem_powN h_tan 4))
        (Iv.mem_mul h14c h_n2))
      (Iv.mem_mul (Iv.mem_mul h58c (Iv.mem_powN h_tan 2)) h_n2))
  have hE0 : (Iv.ofRat 400000 1).mem ((400000 : ℝ)) :=
    Iv.mem_congr (Iv.mem_ofRat (p := 400000) (by norm_num)) (by norm_num)
  have h_N := Iv.mem_add
    (Iv.mem_add (Iv.mem_add h_tI (Iv.mem_mul h_tII (Iv.mem_powN h_dlon 2)))
      (Iv.mem_mul h_tIII (Iv.mem_powN h_dlon 4)))
    (Iv.mem_mul h_tIIIA (Iv.mem_powN h_dlon 6))
  have h_E := Iv.mem_add (Iv.mem_add hE0 (Iv.mem_mul h_tIV h_dlon))
    (Iv.mem_add (Iv.mem_mul h_tV (Iv.mem_powN h_dlon 3))
      (Iv.mem_mul h_tVI (Iv.mem_powN h_dlon 5)))
  exact ⟨h_E, h_N⟩

set_option maxRecDepth 4000000 in
/-- C1: the forward OSGB projection at latitude 52.65757, longitude 1.71792
(the classic worked example) returns an easting within 1 metre of 651409.903
and a northing within 1 metre of 313177.270. Proved by certified dyadic
interval arithmetic: the code value lies in the interval `c1E` times `c1N`,
whose bounds are checked by kernel computation. -/
theorem latLonToGridEastNorth_worked_example :
    |(LatLonToGridEastNorth 52.65757 1.71792).1 - 651409.903| ≤ 1 ∧
    |(LatLonToGridEastNorth 52.65757 1.71792).2 - 313177.270| ≤ 1 := by
  obtain ⟨hE, hN⟩ := c1_mem
  have hElo : (651408903 : ℤ) * SC ≤ 1000 * c1E.lo := by decide
  have hEhi : 1000 * c1E.hi ≤ (651410903 : ℤ) * SC := by decide
  have hNlo : (313176270 : ℤ) * SC ≤ 1000 * c1N.lo := by decide
  have hNhi : 1000 * c1N.hi ≤ (313178270 : ℤ) * SC := by decide
  have cast_lo : ∀ m : ℤ, ∀ I : Iv, ∀ x : ℝ, I.mem x → m * SC ≤ 1000 * I.lo →
      (m : ℝ) / 1000 ≤ x := by
    intro m I x hx hm
    have h1 : (m : ℝ) / 1000 ≤ (I.lo : ℝ) / SC := by
      rw [div_le_div_iff (by norm_num) SC_posR]
      have : ((m * SC : ℤ) : ℝ) ≤ ((1000 * I.lo : ℤ) : ℝ) := by exact_mod_cast hm
      push_cast at this
      linarith
    exact le_trans h1 hx.1
  have cast_hi : ∀ m : ℤ, ∀ I : Iv, ∀ x : ℝ, I.mem x → 1000 * I.hi ≤ m * SC →
      x ≤ (m : ℝ) / 1000 := by
    intro m I x hx hm
    have h1 : (I.hi : ℝ) / SC ≤ (m : ℝ) / 1000 := by
      rw [div_le_div_iff SC_posR (by norm_num)]
      have : ((1000 * I.hi : ℤ) : ℝ) ≤ ((m * SC : ℤ) : ℝ) := by exact_mod_cast hm
      push_cast at this
      linarith
    exact le_trans hx.2 h1
  constructor
  · rw [abs_le]
    have l1 := cast_lo _ _ _ hE hElo
    have l2 := cast_hi _ _ _ hE hEhi
    norm_num at l1 l2 ⊢
    constructor <;> linarith
  · rw [abs_le]
    have l1 := cast_lo _ _ _ hN hNlo
    have l2 := cast_hi _ _ _ hN hNhi
    norm_num at l1 l2 ⊢
    constructor <;> linarith

/-! ## Printing and parsing lemmas for the DMS round trip -/

theorem digitChar_val : ∀ d : ℕ, d < 10 → (digitChar d).toNat = 48 + d := by decide

theorem digitChar_isDigit : ∀ d : ℕ, d < 10 → isDigitCh (digitChar d) = true := by decide

theorem natToChars_ne_nil (n : ℕ) : natToChars n ≠ [] := by
  rw [natToChars]
  split
  · simp
  · simp

theorem natToChars_all_digits (n : ℕ) : (natToChars n).all isDigitCh = true := by
  induction n using Nat.strong_induction_on with
  | _ n ih =>
    rw [natToChars]
    split
    · next h => simp [digitChar_isDigit n h]
    · next h =>
      push_neg at h
      rw [List.all_append]
      rw [ih (n / 10) (Nat.div_lt_self (by omega) (by omega))]
      simp [digitChar_isDigit (n % 10) (Nat.mod_lt n (by omega))]

theorem charsVal_natToChars (n : ℕ) : charsVal (natToChars n) = n := by
  induction n using Nat.strong_induction_on with
  | _ n ih =>
    rw [natToChars]
    split
    · next h =>
      simp [charsVal, digitChar_val n h]
    · next h =>
      push_neg at h
      rw [charsVal, List.foldl_append]
      have hrec : List.foldl (fun a c => a * 10 + (c.toNat - 48)) 0 (natToChars (n / 10)) =
          n / 10 := ih (n / 10) (Nat.div_lt_self (by omega) (by omega))
      rw [hrec]
      simp only [List.foldl_cons, List.foldl_nil]
      rw [digitChar_val (n % 10) (Nat.mod_lt n (by omega))]
      omega

theorem natToChars_length_le (k : ℕ) : ∀ n : ℕ, n < 10 ^ k → 1 ≤ k →
    (natToChars n).length ≤ k := by
  induction k with
  | zero => omega
  | succ k ih =>
    intro n hn _
    rw [natToChars]
    split
    · simpa using by omega
    · next h =>
      push_neg at h
      rw [List.length_append]
      have h1 : n / 10 < 10 ^ k := by
        rw [pow_succ] at hn
        omega
      have h2 : 1 ≤ k := by
        by_contra hc
        push_neg at hc
        interval_cases k
        simp at h1
        omega
      have := ih (n / 10) h1 h2
      simp only [List.length_singleton]
      omega

theorem isDigit_ne_dot {c : Char} (h : isDigitCh c = true) : c ≠ '.' := by
  intro he
  subst he
  exact absurd h (by decide)

theorem isDigit_ne_space {c : Char} (h : isDigitCh c = true) : c ≠ ' ' := by
  intro he
  subst he
  exact absurd h (by decide)

theorem isDigit_ne_minus {c : Char} (h : isDigitCh c = true) : c ≠ '-' := by
  intro he
  subst he
  exact absurd h (by decide)

theorem charsVal_zero_prefix (t : ℕ) (cs : List Char) :
    charsVal (List.replicate t '0' ++ cs) = charsVal cs := by
  rw [charsVal, charsVal, List.foldl_append]
  congr 1
  induction t with
  | zero => rfl
  | succ t ih => simpa [List.replicate_succ] using ih

theorem foldl_zero_suffix (t : ℕ) : ∀ a : ℕ,
    List.foldl (fun a c => a * 10 + (c.toNat - 48)) a (List.replicate t '0') = a * 10 ^ t := by
  induction t with
  | zero => intro a; simp
  | succ t ih =>
    intro a
    rw [List.replicate_succ, List.foldl_cons, ih]
    have : ('0' : Char).toNat - 48 = 0 := by decide
    rw [this]
    ring

theorem charsVal_zero_suffix (cs : List Char) (t : ℕ) :
    charsVal (cs ++ List.replicate t '0') = charsVal cs * 10 ^ t := by
  rw [charsVal, charsVal, List.foldl_append, foldl_zero_suffix]

theorem takeWhile_all {p : Char → Bool} : ∀ cs : List Char,
    (∀ c ∈ cs, p c = true) → cs.takeWhile p = cs ∧ cs.dropWhile p = []
  | [], _ => ⟨rfl, rfl⟩
  | c :: cs, h => by
    have hc : p c = true := h c (List.mem_cons_self c cs)
    have ih := takeWhile_all cs (fun d hd => h d (List.mem_cons_of_mem c hd))
    rw [List.takeWhile_cons, List.dropWhile_cons, hc]
    simp only [if_true]
    exact ⟨by rw [ih.1], ih.2⟩

theorem takeWhile_append_not {p : Char → Bool} : ∀ (xs : List Char) (y : Char)
    (ys : List Char), (∀ c ∈ xs, p c = true) → p y = false →
    (xs ++ y :: ys).takeWhile p = xs ∧ (xs ++ y :: ys).dropWhile p = y :: ys
  | [], y, ys, _, hy => by
    rw [List.nil_append, List.takeWhile_cons, List.dropWhile_cons, hy]
    simp
  | x :: xs, y, ys, h, hy => by
    have hx : p x = true := h x (List.mem_cons_self x xs)
    have ih := takeWhile_append_not xs y ys (fun d hd => h d (List.mem_cons_of_mem x hd)) hy
    rw [List.cons_append, List.takeWhile_cons, List.dropWhile_cons, hx]
    simp only [if_true]
    exact ⟨by rw [ih.1], ih.2⟩

theorem parseFloatCore_digits (cs : List Char) (hne : cs ≠ [])
    (hd : cs.all isDigitCh = true) : parseFloatCore cs = some ((charsVal cs : ℚ)) := by
  have hall : ∀ c ∈ cs, (fun c => decide (c ≠ '.')) c = true := by
    intro c hc
    simp only [decide_eq_true_eq]
    exact isDigit_ne_dot (by
      rw [List.all_eq_true] at hd
      exact hd c hc)
  obtain ⟨h1, h2⟩ := takeWhile_all cs hall
  rw [parseFloatCore]
  simp only [h1, h2]
  rw [if_pos ⟨hne, hd⟩]

theorem parseFloatCore_point (intp frac : List Char) (hne : intp ≠ [])
    (hd1 : intp.all isDigitCh = true) (hd2 : frac.all isDigitCh = true) :
    parseFloatCore (intp ++ '.' :: frac) =
      some ((charsVal intp : ℚ) + (charsVal frac : ℚ) / 10 ^ frac.length) := by
  have hall : ∀ c ∈ intp, (fun c => decide (c ≠ '.')) c = true := by
    intro c hc
    simp only [decide_eq_true_eq]
    exact isDigit_ne_dot (by
      rw [List.all_eq_true] at hd1
      exact hd1 c hc)
  obtain ⟨h1, h2⟩ := takeWhile_append_not intp '.' frac hall (by decide)
  rw [parseFloatCore]
  simp only [h1, h2]
  rw [if_pos ⟨Or.inl hne, hd1, hd2⟩]

theorem parseFloat_digits (cs : List Char) (hne : cs ≠ [])
    (hd : cs.all isDigitCh = true) : parseFloat cs = some ((charsVal cs : ℚ)) := by
  cases cs with
  | nil => exact absurd rfl hne
  | cons c rest =>
    rw [parseFloat]
    have hc : isDigitCh c = true := by
      rw [List.all_eq_true] at hd
      exact hd c (List.mem_cons_self c rest)
    rw [if_neg (isDigit_ne_minus hc)]
    exact parseFloatCore_digits _ hne hd

theorem parseFloat_point (intp frac : List Char) (hne : intp ≠ [])
    (hd1 : intp.all isDigitCh = true) (hd2 : frac.all isDigitCh = true) :
    parseFloat (intp ++ '.' :: frac) =
      some ((charsVal intp : ℚ) + (charsVal frac : ℚ) / 10 ^ frac.length) := by
  cases intp with
  | nil => exact absurd rfl hne
  | cons c rest =>
    rw [List.cons_append, parseFloat]
    have hc : isDigitCh c = true := by
      rw [List.all_eq_true] at hd1
      exact hd1 c (List.mem_cons_self c rest)
    rw [if_neg (isDigit_ne_minus hc)]
    rw [← List.cons_append]
    exact parseFloatCore_point _ _ hne hd1 hd2

theorem splitOnSpace_append : ∀ (xs ys : List Char), (∀ c ∈ xs, c ≠ ' ') →
    splitOnSpace (xs ++ ' ' :: ys) = xs :: splitOnSpace ys
  | [], ys, _ => by
    rw [List.nil_append, splitOnSpace]
    simp
  | x :: xs, ys, h => by
    have hx : x ≠ ' ' := h x (List.mem_cons_self x xs)
    have ih := splitOnSpace_append xs ys (fun d hd => h d (List.mem_cons_of_mem x hd))
    rw [List.cons_append, splitOnSpace, if_neg hx, ih]

theorem splitOnSpace_single : ∀ xs : List Char, (∀ c ∈ xs, c ≠ ' ') →
    splitOnSpace xs = [xs]
  | [], _ => rfl
  | x :: xs, h => by
    have hx : x ≠ ' ' := h x (List.mem_cons_self x xs)
    have ih := splitOnSpace_single xs (fun d hd => h d (List.mem_cons_of_mem x hd))
    rw [splitOnSpace, if_neg hx, ih]

theorem strip_decomp (ds : List Char) :
    ∃ t, ds = (ds.reverse.dropWhile (fun c => c = '0')).reverse ++ List.replicate t '0' := by
  refine ⟨(ds.reverse.takeWhile (fun c => c = '0')).length, ?_⟩
  have hsplit := List.takeWhile_append_dropWhile
    (p := fun c : Char => decide (c = '0')) (l := ds.reverse)
  have htw : ds.reverse.takeWhile (fun c : Char => c = '0') =
      List.replicate (ds.reverse.takeWhile (fun c : Char => c = '0')).length '0' := by
    rw [List.eq_replicate]
    refine ⟨rfl, ?_⟩
    intro b hb
    have hp := List.mem_takeWhile_imp (p := fun c : Char => decide (c = '0'))
      (l := ds.reverse) hb
    simpa using hp
  calc ds = ds.reverse.reverse := (List.reverse_reverse ds).symm
    _ = (ds.reverse.takeWhile (fun c : Char => c = '0') ++
          ds.reverse.dropWhile (fun c : Char => c = '0')).reverse := by rw [hsplit]
    _ = (ds.reverse.dropWhile (fun c : Char => c = '0')).reverse ++
          (ds.reverse.takeWhile (fun c : Char => c = '0')).reverse := by
        rw [List.reverse_append]
    _ = _ := by
        conv_lhs => rw [htw]
        rw [List.reverse_replicate]

theorem rjust_length (s : List Char) (w : ℕ) (c : Char) (h : s.length ≤ w) :
    (rjust s w c).length = w := by
  rw [rjust, List.length_append, List.length_replicate]
  omega

theorem fracChars_spec (m : ℕ) (hm : m < 10000) :
    fracChars m ≠ [] ∧ (fracChars m).all isDigitCh = true ∧
      (charsVal (fracChars m) : ℚ) / 10 ^ (fracChars m).length = (m : ℚ) / 10000 := by
  have hlen : (natToChars m).length ≤ 4 := natToChars_length_le 4 m (by omega) (by omega)
  have hpadlen : (rjust (natToChars m) 4 '0').length = 4 := rjust_length _ _ _ hlen
  have hpadval : charsVal (rjust (natToChars m) 4 '0') = m := by
    rw [rjust, charsVal_zero_prefix, charsVal_natToChars]
  have hpaddig : (rjust (natToChars m) 4 '0').all isDigitCh = true := by
    rw [rjust, List.all_append]
    have h0 : (List.replicate (4 - (natToChars m).length) '0').all isDigitCh = true := by
      rw [List.all_eq_true]
      intro c hc
      rw [List.eq_of_mem_replicate hc]
      decide
    rw [h0, natToChars_all_digits]
    rfl
  obtain ⟨t, hdecomp⟩ := strip_decomp (rjust (natToChars m) 4 '0')
  set stripped := ((rjust (natToChars m) 4 '0').reverse.dropWhile
    (fun c => c = '0')).reverse with hstr
  have hval : charsVal stripped * 10 ^ t = m := by
    rw [← hpadval, hdecomp, charsVal_zero_suffix]
  have hlen2 : stripped.length + t = 4 := by
    rw [← hpadlen, hdecomp, List.length_append, List.length_replicate]
  have hdig : stripped.all isDigitCh = true := by
    rw [List.all_eq_true]
    intro c hc
    have : c ∈ rjust (natToChars m) 4 '0' := by
      rw [hdecomp]
      exact List.mem_append_left _ hc
    rw [List.all_eq_true] at hpaddig
    exact hpaddig c this
  rw [fracChars]
  simp only [← hstr]
  split
  · next hempty =>
    have hm0 : m = 0 := by
      rw [hempty] at hval
      simpa [charsVal] using hval.symm
    refine ⟨by simp, by decide, ?_⟩
    rw [hm0]
    simp [charsVal]
  · next hnonempty =>
    refine ⟨hnonempty, hdig, ?_⟩
    have h10 : ((10 : ℚ)) ^ (stripped.length + t) = 10 ^ stripped.length * 10 ^ t := by
      rw [pow_add]
    rw [div_eq_div_iff (by positivity) (by norm_num)]
    have : ((charsVal stripped * 10 ^ t : ℕ) : ℚ) = (m : ℚ) := by exact_mod_cast hval
    push_cast at this ⊢
    calc (charsVal stripped : ℚ) * 10000 = (charsVal stripped : ℚ) * 10 ^ 4 := by norm_num
      _ = (charsVal stripped : ℚ) * 10 ^ (stripped.length + t) := by rw [hlen2]
      _ = ((charsVal stripped : ℚ) * 10 ^ t) * 10 ^ stripped.length := by
          rw [pow_add]; ring
      _ = (m : ℚ) * 10 ^ stripped.length := by rw [this]

theorem floatRepr4_eq (k : ℕ) : floatRepr4 ((k : ℚ) / 10000) =
    natToChars (k / 10000) ++ '.' :: fracChars (k % 10000) := by
  have hk : (⌊(k : ℚ) / 10000 * 10000⌋).toNat = k := by
    rw [show (k : ℚ) / 10000 * 10000 = (k : ℚ) by ring, Int.floor_natCast]
    rfl
  rw [floatRepr4]
  simp only [hk]

theorem floatRepr4_parse (k : ℕ) :
    parseFloat (floatRepr4 ((k : ℚ) / 10000)) = some ((k : ℚ) / 10000) := by
  rw [floatRepr4_eq]
  have hmod : k % 10000 < 10000 := Nat.mod_lt k (by norm_num)
  obtain ⟨hne, hdig, hval⟩ := fracChars_spec (k % 10000) hmod
  rw [parseFloat_point _ _ (natToChars_ne_nil _) (natToChars_all_digits _) hdig]
  rw [charsVal_natToChars, hval]
  congr 1
  have h2 : (k / 10000) * 10000 + k % 10000 = k := by omega
  rw [eq_div_iff (show (10000 : ℚ) ≠ 0 by norm_num), add_mul,
    div_mul_cancel₀ _ (show (10000 : ℚ) ≠ 0 by norm_num)]
  exact_mod_cast h2

theorem rjust_all_digits (n w : ℕ) : (rjust (natToChars n) w '0').all isDigitCh = true := by
  rw [rjust, List.all_append]
  have h0 : (List.replicate (w - (natToChars n).length) '0').all isDigitCh = true := by
    rw [List.all_eq_true]
    intro c hc
    rw [List.eq_of_mem_replicate hc]
    decide
  rw [h0, natToChars_all_digits]
  rfl

theorem charsVal_rjust (n w : ℕ) : charsVal (rjust (natToChars n) w '0') = n := by
  rw [rjust, charsVal_zero_prefix, charsVal_natToChars]

theorem rjust_ne_nil (n w : ℕ) : rjust (natToChars n) w '0' ≠ [] := by
  rw [rjust]
  intro h
  rcases List.append_eq_nil.mp h with ⟨-, h2⟩
  exact natToChars_ne_nil n h2

theorem no_space_of_digits {cs : List Char} (h : cs.all isDigitCh = true) :
    ∀ c ∈ cs, c ≠ ' ' := by
  intro c hc
  rw [List.all_eq_true] at h
  exact isDigit_ne_space (h c hc)

theorem floatRepr4_no_space (k : ℕ) : ∀ c ∈ floatRepr4 ((k : ℚ) / 10000), c ≠ ' ' := by
  rw [floatRepr4_eq]
  intro c hc
  rcases List.mem_append.mp hc with h1 | h2
  · exact no_space_of_digits (natToChars_all_digits _) c h1
  · rcases List.mem_cons.mp h2 with h3 | h4
    · rw [h3]; decide
    · have hmod : k % 10000 < 10000 := Nat.mod_lt k (by norm_num)
      exact no_space_of_digits (fracChars_spec (k % 10000) hmod).2.1 c h4

theorem roundHalfEven_close (q : ℚ) : |((roundHalfEven q : ℤ) : ℚ) - q| ≤ 1 / 2 := by
  rw [roundHalfEven]
  split
  · next htie =>
    split
    · rw [abs_le]
      constructor <;> [skip; skip] <;>
        [linarith [htie, Int.floor_le q]; linarith [htie]]
    · rw [abs_le]
      push_cast
      constructor <;> linarith [htie]
  · next hno =>
    rw [abs_sub_comm]
    exact abs_sub_round q

theorem roundHalfEven_nonneg {q : ℚ} (h : 0 ≤ q) : 0 ≤ roundHalfEven q := by
  rw [roundHalfEven]
  split
  · split
    · exact Int.floor_nonneg.mpr h
    · have := Int.floor_nonneg.mpr h
      omega
  · rw [round_eq]
    have : (0 : ℤ) ≤ ⌊(1 : ℚ) / 2⌋ := by norm_num
    exact le_trans this (Int.floor_le_floor (by linarith))

theorem pyRound4_close (q : ℚ) : |pyRound q 4 - q| ≤ 1 / 20000 := by
  rw [pyRound]
  have h := roundHalfEven_close (q * 10 ^ 4)
  rw [show ((roundHalfEven (q * 10 ^ 4) : ℤ) : ℚ) / 10 ^ 4 - q =
    (((roundHalfEven (q * 10 ^ 4) : ℤ) : ℚ) - q * 10 ^ 4) / 10 ^ 4 by ring]
  rw [abs_div, abs_of_pos (by norm_num : (0 : ℚ) < 10 ^ 4)]
  rw [div_le_iff (by norm_num : (0 : ℚ) < 10 ^ 4)]
  calc |((roundHalfEven (q * 10 ^ 4) : ℤ) : ℚ) - q * 10 ^ 4| ≤ 1 / 2 := h
    _ = 1 / 20000 * 10 ^ 4 := by norm_num

theorem pyRound4_nonneg {q : ℚ} (h : 0 ≤ q) : 0 ≤ pyRound q 4 := by
  rw [pyRound]
  apply div_nonneg ?_ (by norm_num)
  exact_mod_cast roundHalfEven_nonneg (by positivity)

theorem pyRound4_rep {q : ℚ} (h : 0 ≤ q) :
    pyRound q 4 = (((roundHalfEven (q * 10 ^ 4)).toNat : ℕ) : ℚ) / 10000 := by
  rw [pyRound]
  congr 1
  exact_mod_cast (Int.toNat_of_nonneg (roundHalfEven_nonneg (by positivity))).symm

theorem toNat_floor_le {y : ℚ} (hy : 0 ≤ y) : (((⌊y⌋).toNat : ℕ) : ℚ) ≤ y := by
  have h : (((⌊y⌋).toNat : ℕ) : ℤ) = ⌊y⌋ := Int.toNat_of_nonneg (Int.floor_nonneg.mpr hy)
  have h2 : (((⌊y⌋).toNat : ℕ) : ℚ) = ((⌊y⌋ : ℤ) : ℚ) := by exact_mod_cast h
  rw [h2]
  exact Int.floor_le y

theorem dms_split_parse (t1 t3 : List Char) (mins : ℕ) (suffix : Char) (v1 v3 : ℚ)
    (h1sp : ∀ c ∈ t1, c ≠ ' ') (h3sp : ∀ c ∈ t3, c ≠ ' ') (hsufsp : suffix ≠ ' ')
    (hp1 : parseFloat t1 = some v1) (hp3 : parseFloat t3 = some v3) :
    DmsToDd (t1 ++ ' ' :: (natToChars mins ++ ' ' :: (t3 ++ [' ', suffix]))) =
      some (if [suffix] = ['S'] ∨ [suffix] = ['W'] then
          -(v1 + (mins : ℚ) / 60 + v3 / 3600)
        else v1 + (mins : ℚ) / 60 + v3 / 3600) := by
  have hsplit : splitOnSpace (t1 ++ ' ' ::
      (natToChars mins ++ ' ' :: (t3 ++ [' ', suffix]))) =
      [t1, natToChars mins, t3, [suffix]] := by
    rw [splitOnSpace_append _ _ h1sp]
    rw [show (t3 ++ [' ', suffix] : List Char) = t3 ++ ' ' :: [suffix] from rfl]
    rw [splitOnSpace_append _ _ (no_space_of_digits (natToChars_all_digits mins))]
    rw [splitOnSpace_append _ _ h3sp]
    rw [splitOnSpace_single [suffix] (by
      intro c hc
      rw [List.mem_singleton.mp hc]
      exact hsufsp)]
  rw [DmsToDd]
  simp only [hsplit]
  have g0 : ([t1, natToChars mins, t3, [suffix]] : List (List Char)).get? 0 = some t1 := rfl
  have g1 : ([t1, natToChars mins, t3, [suffix]] : List (List Char)).get? 1 =
    some (natToChars mins) := rfl
  have g2 : ([t1, natToChars mins, t3, [suffix]] : List (List Char)).get? 2 = some t3 := rfl
  have g3 : ([t1, natToChars mins, t3, [suffix]] : List (List Char)).get? 3 =
    some [suffix] := rfl
  rw [g0, g1, g2, g3]
  dsimp only
  rw [hp1, hp3, parseFloat_digits (natToChars mins) (natToChars_ne_nil _)
    (natToChars_all_digits _), charsVal_natToChars]

theorem dms_value_bound (x D M v3 : ℚ) (h : |v3 - (|x| - D - M / 60) * 3600| ≤ 1 / 20000) :
    (0 ≤ x → |D + M / 60 + v3 / 3600 - x| ≤ 1 / 10000) ∧
    (x < 0 → |-(D + M / 60 + v3 / 3600) - x| ≤ 1 / 10000) := by
  constructor
  · intro hx
    rw [abs_of_nonneg hx] at h
    rw [abs_le] at h ⊢
    constructor <;> linarith [h.1, h.2]
  · intro hx
    rw [abs_of_neg hx] at h
    rw [abs_le] at h ⊢
    constructor <;> linarith [h.1, h.2]

theorem dms_roundtrip_core (x : ℚ) (w : ℕ) (sneg spos : Char)
    (hneg : [sneg] = ['S'] ∨ [sneg] = ['W']) (hpos1 : ¬([spos] = ['S'] ∨ [spos] = ['W']))
    (hposs : spos ≠ ' ') (hnegs : sneg ≠ ' ') :
    ∃ v : ℚ,
      DmsToDd (rjust (natToChars (⌊|x|⌋).toNat) w '0' ++ ' ' ::
        (natToChars (⌊(|x| - (((⌊|x|⌋).toNat : ℕ) : ℚ)) * 60⌋).toNat ++ ' ' ::
          (floatRepr4 (pyRound ((|x| - (((⌊|x|⌋).toNat : ℕ) : ℚ) -
            (((⌊(|x| - (((⌊|x|⌋).toNat : ℕ) : ℚ)) * 60⌋).toNat : ℕ) : ℚ) / 60) * 3600) 4) ++
            [' ', if x < 0 then sneg else spos]))) = some v ∧ |v - x| ≤ 1 / 10000 := by
  have habs0 : (0 : ℚ) ≤ |x| := abs_nonneg x
  have hdegle : (((⌊|x|⌋).toNat : ℕ) : ℚ) ≤ |x| := toNat_floor_le habs0
  have hminsle : (((⌊(|x| - (((⌊|x|⌋).toNat : ℕ) : ℚ)) * 60⌋).toNat : ℕ) : ℚ) ≤
      (|x| - (((⌊|x|⌋).toNat : ℕ) : ℚ)) * 60 :=
    toNat_floor_le (by nlinarith)
  have hsec0 : 0 ≤ (|x| - (((⌊|x|⌋).toNat : ℕ) : ℚ) -
      (((⌊(|x| - (((⌊|x|⌋).toNat : ℕ) : ℚ)) * 60⌋).toNat : ℕ) : ℚ) / 60) * 3600 := by
    nlinarith
  rw [pyRound4_rep hsec0]
  have hclose := pyRound4_close ((|x| - (((⌊|x|⌋).toNat : ℕ) : ℚ) -
    (((⌊(|x| - (((⌊|x|⌋).toNat : ℕ) : ℚ)) * 60⌋).toNat : ℕ) : ℚ) / 60) * 3600)
  rw [pyRound4_rep hsec0] at hclose
  have hbound := dms_value_bound x (((⌊|x|⌋).toNat : ℕ) : ℚ)
    ((((⌊(|x| - (((⌊|x|⌋).toNat : ℕ) : ℚ)) * 60⌋).toNat : ℕ) : ℚ))
    ((((roundHalfEven (((|x| - (((⌊|x|⌋).toNat : ℕ) : ℚ) -
      (((⌊(|x| - (((⌊|x|⌋).toNat : ℕ) : ℚ)) * 60⌋).toNat : ℕ) : ℚ) / 60) * 3600) * 10 ^ 4)).toNat :
        ℕ) : ℚ) / 10000) hclose
  have hp1 : parseFloat (rjust (natToChars (⌊|x|⌋).toNat) w '0') =
      some (((⌊|x|⌋).toNat : ℚ)) := by
    rw [parseFloat_digits _ (rjust_ne_nil _ _) (rjust_all_digits _ _), charsVal_rjust]
  rcases lt_or_le x 0 with hx | hx
  · rw [if_pos hx]
    rw [dms_split_parse _ _ _ _ _ _
      (no_space_of_digits (rjust_all_digits _ _)) (floatRepr4_no_space _) hnegs hp1
      (floatRepr4_parse _)]
    rw [if_pos hneg]
    exact ⟨_, rfl, hbound.2 hx⟩
  · rw [if_neg (not_lt.mpr hx)]
    rw [dms_split_parse _ _ _ _ _ _
      (no_space_of_digits (rjust_all_digits _ _)) (floatRepr4_no_space _) hposs hp1
      (floatRepr4_parse _)]
    rw [if_neg hpos1]
    exact ⟨_, rfl, hbound.1 hx⟩

theorem dmsToDd_ddToDms (x : ℚ) (axis : ELatLon) :
    ∃ v : ℚ, DmsToDd (DdToDms x axis) = some v ∧ |v - x| ≤ 1 / 10000 := by
  cases axis with
  | Lat =>
    simpa only [DdToDms] using
      dms_roundtrip_core x 2 'S' 'N' (Or.inl rfl) (by decide) (by decide) (by decide)
  | Lon =>
    simpa only [DdToDms] using
      dms_roundtrip_core x 3 'W' 'E' (Or.inr rfl) (by decide) (by decide) (by decide)

/-- **C3.** For every decimal-degree value `x` in the valid range of the given
axis (|x| ≤ 90 for latitude, |x| ≤ 180 for longitude), `DmsToDd` applied to
`DdToDms x axis` succeeds and returns a value within 1e-4 degrees of `x`. -/
theorem dmsToDd_ddToDms_in_range (x : ℚ) (axis : ELatLon)
    (hrange : (axis = ELatLon.Lat → |x| ≤ 90) ∧ (axis = ELatLon.Lon → |x| ≤ 180)) :
    ∃ v : ℚ, DmsToDd (DdToDms x axis) = some v ∧ |v - x| ≤ 1 / 10000 :=
  dmsToDd_ddToDms x axis

/-- Witness for the round-trip theorem at latitude 51.5. -/
theorem dmsToDd_ddToDms_in_range_witness :
    ∃ v : ℚ, DmsToDd (DdToDms ((103 : ℚ) / 2) ELatLon.Lat) = some v ∧
      |v - (103 : ℚ) / 2| ≤ 1 / 10000 :=
  dmsToDd_ddToDms_in_range ((103 : ℚ) / 2) ELatLon.Lat
    ⟨fun _ => by
      rw [abs_of_nonneg (by norm_num : (0 : ℚ) ≤ 103 / 2)]
      norm_num,
     fun h => nomatch h⟩

theorem natToChars_51 : natToChars 51 = ['5', '1'] := by
  rw [natToChars, dif_neg (by norm_num : ¬ (51 : ℕ) < 10)]
  rw [show (51 : ℕ) / 10 = 5 from rfl, show (51 : ℕ) % 10 = 1 from rfl]
  rw [natToChars, dif_pos (by norm_num : (5 : ℕ) < 10)]
  rfl

theorem natToChars_30 : natToChars 30 = ['3', '0'] := by
  rw [natToChars, dif_neg (by norm_num : ¬ (30 : ℕ) < 10)]
  rw [show (30 : ℕ) / 10 = 3 from rfl, show (30 : ℕ) % 10 = 0 from rfl]
  rw [natToChars, dif_pos (by norm_num : (3 : ℕ) < 10)]
  rfl

theorem natToChars_zero : natToChars 0 = ['0'] := by
  rw [natToChars, dif_pos (by norm_num : (0 : ℕ) < 10)]
  rfl

theorem pyRound_zero : pyRound (0 : ℚ) 4 = 0 := by
  rw [pyRound]
  norm_num [roundHalfEven]

theorem floatRepr4_zero : floatRepr4 (0 : ℚ) = ['0', '.', '0'] := by
  rw [floatRepr4]
  rw [show ⌊(0 : ℚ) * 10000⌋ = 0 by norm_num]
  rw [show ((0 : ℤ).toNat : ℕ) = 0 from rfl]
  rw [show (0 : ℕ) / 10000 = 0 from rfl, show (0 : ℕ) % 10000 = 0 from rfl]
  rw [natToChars_zero, fracChars, natToChars_zero]
  rfl

/-- **C9.** `DdToDms` applied to 51.5 with the latitude axis returns exactly
the string "51 30 0.0 N": degrees 51 zero-padded to two digits, minutes 30,
seconds rendered as 0.0, hemisphere letter N for the non-negative latitude. -/
theorem ddToDms_515_lat :
    DdToDms ((103 : ℚ) / 2) ELatLon.Lat =
      ['5', '1', ' ', '3', '0', ' ', '0', '.', '0', ' ', 'N'] := by
  have habs : |((103 : ℚ) / 2)| = 103 / 2 := abs_of_nonneg (by norm_num)
  have hf1 : ⌊(103 : ℚ) / 2⌋ = 51 := by
    rw [Int.floor_eq_iff]
    constructor <;> norm_num
  simp only [DdToDms, habs, hf1]
  rw [show ((51 : ℤ).toNat : ℕ) = 51 from rfl]
  rw [show (((51 : ℕ) : ℚ)) = 51 by norm_num]
  have hm : ((103 : ℚ) / 2 - 51) * 60 = 30 := by norm_num
  rw [hm]
  have hf2 : ⌊(30 : ℚ)⌋ = 30 := by
    rw [Int.floor_eq_iff]
    constructor <;> norm_num
  rw [hf2]
  rw [show ((30 : ℤ).toNat : ℕ) = 30 from rfl]
  rw [show (((30 : ℕ) : ℚ)) = 30 by norm_num]
  have hs : ((103 : ℚ) / 2 - 51 - 30 / 60) * 3600 = 0 := by norm_num
  rw [hs, pyRound_zero, floatRepr4_zero, natToChars_30, natToChars_51]
  rw [if_neg (by norm_num : ¬ (103 : ℚ) / 2 < 0)]
  rfl
